import Mathlib

/-
  Verification of the kd_pixdriver LED driver library.

  This file gives a shallow embedding, in Lean 4, of the parts of the
  koiosdigital/kd_pixdriver C++ sources that the specification talks about:
  the color and math utilities (src/include/pixel_core.h), the WS2812B
  protocol encoder (src/src/kd_pixdriver.cpp, src/include/i2s_pixel_protocol.h),
  the current-limiting computation, the animation engine
  (src/src/pixel_effects.cpp) and the browser preview (src/wasm/pixel_preview.cpp),
  and the driver channel bookkeeping.

  Conventions:
  - C++ unsigned machine integers are embedded as Nat, with explicit reductions
    modulo 2^8 / 2^16 / 2^32 exactly where the C++ code stores into a narrower
    unsigned type (so wrap-around behaviour is preserved).  Signed int16_t
    values (comet head positions) are embedded as Int with an explicit wrap.
  - float arithmetic in the current-limiting path is embedded as exact
    rational (Rat) arithmetic; static_cast<uint8_t> of a non-negative float
    is embedded as Int.floor followed by Int.toNat.
  - the hardware random source (pixel_random / pixel_random_byte) is embedded
    as an explicit stream r : Nat -> Nat together with a position counter that
    advances by one per call; pixel_random_byte is the stream value reduced
    mod 256, matching the C++ cast of pixel_random() to uint8_t.
  - std::vector buffers are embedded as List, with std::vector::operator[]
    writes embedded as List.set (in-bounds in all uses proved below).
-/

namespace KD

/-- Reduction into an 8-bit unsigned store, as performed by a C++ assignment or
cast to uint8_t. -/
def u8 (n : Nat) : Nat := n % 256

/-- Reduction into a 32-bit unsigned store, as performed by a C++ assignment to
uint32_t. -/
def u32 (n : Nat) : Nat := n % 4294967296

/-- Unsigned 32-bit subtraction a - b, with wraparound, as computed by C++ on
two uint32_t values. -/
def u32sub (a b : Nat) : Nat := (u32 a + 4294967296 - u32 b) % 4294967296

/-- Wrap of an int value into int16_t, as performed by a C++ store into an
int16_t field (two's-complement wrap). -/
def i16 (x : Int) : Int := (x + 32768) % 65536 - 32768

/-- Embedding of std::clamp(speed, uint8_t(1), uint8_t(10)). -/
def clampSpeed (s : Nat) : Nat := if s < 1 then 1 else if 10 < s then 10 else s

/-- Embedding of std::toupper on an unsigned char restricted to ASCII, as used
by equalsIgnoreCase in pixel_effects.cpp and pixel_preview.cpp. -/
def toUpperByte (n : Nat) : Nat := if 97 ≤ n ∧ n ≤ 122 then n - 32 else n

/-- Case-insensitive string comparison: embedding of the anonymous-namespace
helper equalsIgnoreCase shared by src/src/pixel_effects.cpp and
src/wasm/pixel_preview.cpp (size equality plus per-character toupper
comparison). -/
def equalsIgnoreCase (a b : String) : Bool :=
  a.data.length == b.data.length &&
    (List.zip a.data b.data).all fun p => toUpperByte p.1.toNat == toUpperByte p.2.toNat

/-- Pixel format, from src/include/pixel_core.h. -/
inductive PixelFormat where
  | RGB
  | RGBW
deriving DecidableEq, Repr

/-- PixelColor, from src/include/pixel_core.h: four 8-bit channels. -/
structure PixelColor where
  r : Nat := 0
  g : Nat := 0
  b : Nat := 0
  w : Nat := 0
deriving DecidableEq, Repr

namespace PixelColor

/-- Embedding of PixelColor::Black(). -/
def Black : PixelColor := ⟨0, 0, 0, 0⟩

/-- Embedding of PixelColor::scale (pixel_core.h): per-channel multiply by
brightness and divide by 255, with the brightness == 255 shortcut. -/
def scale (p : PixelColor) (brightness : Nat) : PixelColor :=
  if brightness = 255 then p
  else ⟨p.r * brightness / 255, p.g * brightness / 255,
        p.b * brightness / 255, p.w * brightness / 255⟩

/-- Embedding of PixelColor::blend (pixel_core.h): linear interpolation with
weight amount (a uint8_t). -/
def blend (p other : PixelColor) (amount : Nat) : PixelColor :=
  let inv := 255 - u8 amount
  ⟨(p.r * inv + other.r * u8 amount) / 255,
   (p.g * inv + other.g * u8 amount) / 255,
   (p.b * inv + other.b * u8 amount) / 255,
   (p.w * inv + other.w * u8 amount) / 255⟩

/-- Embedding of PixelColor::fromHSV (pixel_core.h): 6-region HSV to RGB with
8-bit fixed point math.  All three of hue, saturation, value are uint8_t. -/
def fromHSV (hue saturation value : Nat) : PixelColor :=
  if saturation = 0 then ⟨value, value, value, 0⟩
  else
    let region := u8 hue / 43
    let remainder := u8 ((u8 hue - region * 43) * 6)
    let p := u8 (value * (255 - saturation) / 256)
    let q := u8 (value * (255 - saturation * remainder / 256) / 256)
    let t := u8 (value * (255 - saturation * (255 - remainder) / 256) / 256)
    match region with
    | 0 => ⟨value, t, p, 0⟩
    | 1 => ⟨q, value, p, 0⟩
    | 2 => ⟨p, value, t, 0⟩
    | 3 => ⟨p, q, value, 0⟩
    | 4 => ⟨t, p, value, 0⟩
    | _ => ⟨value, p, q, 0⟩

end PixelColor

/-- The 256-entry gamma correction table GAMMA_TABLE from
src/include/pixel_core.h. -/
def GAMMA_TABLE : List Nat :=
  [0,   0,   0,   0,   0,   0,   0,   0,   0,   0,   0,   0,   0,   0,   0,   0,
   0,   0,   0,   0,   0,   0,   0,   0,   0,   0,   0,   0,   1,   1,   1,   1,
   1,   1,   1,   1,   1,   1,   1,   1,   1,   2,   2,   2,   2,   2,   2,   2,
   2,   3,   3,   3,   3,   3,   3,   3,   4,   4,   4,   4,   4,   5,   5,   5,
   5,   6,   6,   6,   6,   7,   7,   7,   7,   8,   8,   8,   9,   9,   9,  10,
  10,  10,  11,  11,  11,  12,  12,  13,  13,  13,  14,  14,  15,  15,  16,  16,
  17,  17,  18,  18,  19,  19,  20,  20,  21,  21,  22,  22,  23,  24,  24,  25,
  25,  26,  27,  27,  28,  29,  29,  30,  31,  32,  32,  33,  34,  35,  35,  36,
  37,  38,  39,  39,  40,  41,  42,  43,  44,  45,  46,  47,  48,  49,  50,  50,
  51,  52,  54,  55,  56,  57,  58,  59,  60,  61,  62,  63,  64,  66,  67,  68,
  69,  70,  72,  73,  74,  75,  77,  78,  79,  81,  82,  83,  85,  86,  87,  89,
  90,  92,  93,  95,  96,  98,  99, 101, 102, 104, 105, 107, 109, 110, 112, 114,
 115, 117, 119, 120, 122, 124, 126, 127, 129, 131, 133, 135, 137, 138, 140, 142,
 144, 146, 148, 150, 152, 154, 156, 158, 160, 162, 164, 167, 169, 171, 173, 175,
 177, 180, 182, 184, 186, 189, 191, 193, 196, 198, 200, 203, 205, 208, 210, 213,
 215, 218, 220, 223, 225, 228, 231, 233, 236, 239, 241, 244, 247, 249, 252, 255]

/-- Embedding of gammaCorrect (pixel_core.h): lookup of a uint8_t value in
GAMMA_TABLE. -/
def gammaCorrect (v : Nat) : Nat := GAMMA_TABLE.getD (u8 v) 0

/-- Entry i of the 256-entry sine lookup table, as generated by
generateSinTable in src/include/pixel_core.h (identically in
src/include/pixel_effects.h).  The final (result + 256) / 2 is stored through a
static_cast to uint8_t, hence the mod 256 (the cast truncates 256 to 0 at the
two peak entries). -/
def sinTableAt (i : Nat) : Nat :=
  let angle := u8 i
  let result : Int :=
    if angle < 128 then
      (if angle < 64 then (angle : Int) * 4 else (128 - (angle : Int)) * 4)
    else
      let a := angle - 128
      (if a < 64 then -((a : Int) * 4) else -((128 - (a : Int)) * 4))
  (((result + 256) / 2).toNat) % 256

/-- Random stream abstraction: the sequence of values returned by successive
calls to pixel_random() (pixel_platform.h).  A position counter selects the
next value; pixel_random_byte() is u8 of the same stream value. -/
abbrev Rng := Nat → Nat

/-- Per-channel animation state: EffectState from src/include/pixel_effects.h
(engine side) and src/include/pixel_core.h (preview side).  The C union of
per-effect scratch structs is modelled as disjoint record fields: each effect
reads and writes only its own variant plus the common fields, so the overlay
aliasing of the union is never observable within a single effect.  The fire
heat storage (the fixed uint8 heat array of 64 cells on the engine side, the
separate heat_map_ vector of max(64, led_count) cells on the preview side) is
modelled as a list of cell values.  Field defaults are those of the
pixel_core.h constructor (breathe = \x7b128, true\x7d, other fields zero /
false, a 64-cell zero heat map). -/
structure EffectState where
  last_update_tick : Nat := 0
  phase : Nat := 0
  counter : Nat := 0
  direction : Bool := false
  breathe_brightness : Nat := 128
  breathe_increasing : Bool := true
  wipe_pixel : Nat := 0
  wipe_clearing : Bool := false
  chase_offset : Nat := 0
  rainbow_offset : Nat := 0
  cyclic_offset : Nat := 0
  comet_head : Int := 0
  wave_position : Nat := 0
  fire_heat : List Nat := List.replicate 64 0
deriving DecidableEq, Repr

/-- The per-channel effect parameters an effect function reads: the relevant
fields of EffectConfig (engine side) or the color_/brightness_/speed_ members
(preview side). -/
structure EffectEnv where
  color : PixelColor
  brightness : Nat
  speed : Nat

/-- Result of running one effect step: updated animation state, updated pixel
buffer, and the advanced random-stream position. -/
abbrev EffectResult := EffectState × List PixelColor × Nat

/-- Uniform shape of an embedded effect step function: random stream, update
rate in Hz, effect parameters, animation state, pixel buffer, tick, random
position. -/
abbrev EffectFnT := Rng → Nat → EffectEnv → EffectState → List PixelColor → Nat → Nat → EffectResult

namespace PixelEffectEngine

/-- Embedding of PixelEffectEngine::getEffectInterval (pixel_effects.cpp):
base interval times (11 - clamped speed).  The speed parameter is a uint8_t,
hence the u8 reduction. -/
def getEffectInterval (update_rate_hz speed : Nat) : Nat :=
  let base_interval := update_rate_hz / 10
  let clamped_speed := clampSpeed (u8 speed)
  base_interval * (11 - clamped_speed)

/-- Embedding of PixelEffectEngine::applySolid. -/
def applySolid : EffectFnT := fun _ _ cfg st buf _ pos =>
  (st, buf.map fun _ => cfg.color, pos)

/-- Embedding of PixelEffectEngine::applyBlink. -/
def applyBlink : EffectFnT := fun _ rate cfg st buf tick pos =>
  let interval := getEffectInterval rate cfg.speed
  let st :=
    if u32sub tick st.last_update_tick ≥ interval then
      { st with direction := !st.direction, last_update_tick := u32 tick }
    else st
  let color := if st.direction then cfg.color else PixelColor.Black
  (st, buf.map fun _ => color, pos)

/-- Embedding of PixelEffectEngine::applyBreathe. -/
def applyBreathe : EffectFnT := fun _ rate cfg st buf tick pos =>
  let interval := getEffectInterval rate cfg.speed / 4
  let st :=
    if u32sub tick st.last_update_tick ≥ interval then
      let st :=
        if st.breathe_increasing then
          let b := u8 (st.breathe_brightness + 5)
          if b ≥ 250 then { st with breathe_brightness := 255, breathe_increasing := false }
          else { st with breathe_brightness := b }
        else
          if st.breathe_brightness ≤ 5 then
            { st with breathe_brightness := 0, breathe_increasing := true }
          else { st with breathe_brightness := st.breathe_brightness - 5 }
      { st with last_update_tick := u32 tick }
    else st
  let gamma_brightness := gammaCorrect st.breathe_brightness
  let color := cfg.color.scale gamma_brightness
  (st, buf.map fun _ => color, pos)

/-- Embedding of PixelEffectEngine::applyCyclic. -/
def applyCyclic : EffectFnT := fun _ rate cfg st buf tick pos =>
  let interval := getEffectInterval rate cfg.speed
  let size := buf.length
  let st :=
    if u32sub tick st.last_update_tick ≥ interval then
      { st with cyclic_offset := u8 ((st.cyclic_offset + 1) % size),
                last_update_tick := u32 tick }
    else st
  let buf := buf.map fun _ => PixelColor.Black
  let trail_length := min 5 size
  let buf := (List.range trail_length).foldl (fun bf i =>
      let idx := (st.cyclic_offset + i) % size
      let fade := u8 (255 - i * 255 / trail_length)
      bf.set idx (cfg.color.scale fade)) buf
  (st, buf, pos)

/-- Embedding of PixelEffectEngine::applyRainbow. -/
def applyRainbow : EffectFnT := fun _ rate cfg st buf tick pos =>
  let interval := getEffectInterval rate cfg.speed
  let size := buf.length
  let st :=
    if u32sub tick st.last_update_tick ≥ interval then
      { st with rainbow_offset := (st.rainbow_offset + 1) % 256,
                last_update_tick := u32 tick }
    else st
  let buf := buf.mapIdx fun i _ =>
    PixelColor.fromHSV (u8 (i * 256 / size + st.rainbow_offset)) 255 cfg.brightness
  (st, buf, pos)

/-- Embedding of PixelEffectEngine::applyColorWipe. -/
def applyColorWipe : EffectFnT := fun _ rate cfg st buf tick pos =>
  let interval := getEffectInterval rate cfg.speed
  let size := buf.length
  let st :=
    if u32sub tick st.last_update_tick ≥ interval then
      let st :=
        if st.wipe_pixel < size then { st with wipe_pixel := st.wipe_pixel + 1 }
        else { st with wipe_clearing := !st.wipe_clearing, wipe_pixel := 0 }
      { st with last_update_tick := u32 tick }
    else st
  let fill := if st.wipe_clearing then PixelColor.Black else cfg.color
  let rest := if st.wipe_clearing then cfg.color else PixelColor.Black
  let buf := buf.mapIdx fun i _ => if i < st.wipe_pixel then fill else rest
  (st, buf, pos)

/-- Embedding of PixelEffectEngine::applyTheaterChase. -/
def applyTheaterChase : EffectFnT := fun _ rate cfg st buf tick pos =>
  let interval := getEffectInterval rate cfg.speed
  let st :=
    if u32sub tick st.last_update_tick ≥ interval then
      { st with chase_offset := (st.chase_offset + 1) % 3,
                last_update_tick := u32 tick }
    else st
  let buf := buf.mapIdx fun i _ =>
    if (i + st.chase_offset) % 3 = 0 then cfg.color else PixelColor.Black
  (st, buf, pos)

/-- Embedding of PixelEffectEngine::applySparkle.  One pixel_random() call is
consumed per pixel on each gated update. -/
def applySparkle : EffectFnT := fun r rate cfg st buf tick pos =>
  let interval := getEffectInterval rate cfg.speed / 2
  if u32sub tick st.last_update_tick ≥ interval then
    let buf := buf.map fun _ => PixelColor.Black
    let bp := (List.range buf.length).foldl (fun bp i =>
        let b := if u32 (r bp.2) % 20 = 0 then bp.1.set i cfg.color else bp.1
        (b, bp.2 + 1)) (buf, pos)
    ({ st with last_update_tick := u32 tick }, bp.1, bp.2)
  else (st, buf, pos)

/-- Embedding of PixelEffectEngine::applyComet. -/
def applyComet : EffectFnT := fun _ rate cfg st buf tick pos =>
  let interval := getEffectInterval rate cfg.speed
  let size : Int := buf.length
  let tail_length : Int := max 3 (size / 4)
  let st :=
    if u32sub tick st.last_update_tick ≥ interval then
      let head := i16 (st.comet_head + 1)
      let head := if head ≥ size + tail_length then -tail_length else head
      { st with comet_head := head, last_update_tick := u32 tick }
    else st
  let buf := buf.map fun p => p.scale 200
  let buf := (List.range tail_length.toNat).foldl (fun bf (i : Nat) =>
      let p := st.comet_head - (i : Int)
      if 0 ≤ p ∧ p < size then
        bf.set p.toNat (cfg.color.scale (u8 (255 - i * 255 / tail_length.toNat)))
      else bf) buf
  (st, buf, pos)

/-- Embedding of PixelEffectEngine::applyFire.  Note the engine operates only
on the first min(size, 64) heat cells (the fixed 64-byte union array), while
the cooling divisor is 55 * 10 / size + 2 over the actual strip length. -/
def applyFire : EffectFnT := fun r rate cfg st buf tick pos =>
  let interval := getEffectInterval rate cfg.speed / 2
  let size := buf.length
  let sp :=
    if u32sub tick st.last_update_tick ≥ interval then
      -- cool down every cell
      let hp := (List.range (min size 64)).foldl (fun hp i =>
          let cooldown := u8 (r hp.2) % (55 * 10 / size + 2)
          (hp.1.set i (if hp.1.getD i 0 > cooldown then hp.1.getD i 0 - cooldown else 0),
           hp.2 + 1))
        (st.fire_heat, pos)
      -- heat rises: diffuse upward, i from min(size,64)-1 down to 2
      let hi := min size 64 - 1
      let heat := ((List.range (hi - 1)).map (fun k => hi - k)).foldl
        (fun h i => h.set i ((h.getD (i - 1) 0 + h.getD (i - 2) 0 + h.getD (i - 2) 0) / 3)) hp.1
      -- randomly ignite new sparks at the bottom
      let hp2 :=
        if u8 (r hp.2) < 120 then
          let p := u8 (r (hp.2 + 1)) % (min 7 size)
          (heat.set p (min 255 (heat.getD p 0 + 160 + u8 (r (hp.2 + 2)) % 96)), hp.2 + 3)
        else (heat, hp.2 + 1)
      ({ st with fire_heat := hp2.1, last_update_tick := u32 tick }, hp2.2)
    else (st, pos)
  let st := sp.1
  let buf := buf.mapIdx fun i _ =>
    let heat := if i < 64 then st.fire_heat.getD i 0 else 0
    let c : PixelColor :=
      if heat < 85 then ⟨heat * 3, 0, 0, 0⟩
      else if heat < 170 then ⟨255, (heat - 85) * 3, 0, 0⟩
      else ⟨255, 255, (heat - 170) * 3, 0⟩
    c.scale cfg.brightness
  (st, buf, sp.2)

/-- Embedding of PixelEffectEngine::applyWave. -/
def applyWave : EffectFnT := fun _ rate cfg st buf tick pos =>
  let interval := getEffectInterval rate cfg.speed / 4
  let size := buf.length
  let st :=
    if u32sub tick st.last_update_tick ≥ interval then
      { st with wave_position := u8 (st.wave_position + 1),
                last_update_tick := u32 tick }
    else st
  let buf := buf.mapIdx fun i _ =>
    let phase := u8 (i * 256 / size + st.wave_position)
    cfg.color.scale (sinTableAt phase)
  (st, buf, pos)

/-- Embedding of PixelEffectEngine::applyTwinkle. -/
def applyTwinkle : EffectFnT := fun r rate cfg st buf tick pos =>
  let interval := getEffectInterval rate cfg.speed / 4
  if u32sub tick st.last_update_tick ≥ interval then
    let buf := buf.map fun p => p.scale 245
    let bp := (List.range buf.length).foldl (fun bp i =>
        let b := if u32 (r bp.2) % 50 = 0 then bp.1.set i cfg.color else bp.1
        (b, bp.2 + 1)) (buf, pos)
    ({ st with last_update_tick := u32 tick }, bp.1, bp.2)
  else (st, buf, pos)

/-- Embedding of PixelEffectEngine::applyGradient. -/
def applyGradient : EffectFnT := fun _ rate cfg st buf tick pos =>
  let interval := getEffectInterval rate cfg.speed
  let size := buf.length
  let st :=
    if u32sub tick st.last_update_tick ≥ interval then
      { st with phase := u32 (st.phase + 1), last_update_tick := u32 tick }
    else st
  let complement : PixelColor :=
    ⟨255 - u8 cfg.color.r, 255 - u8 cfg.color.g, 255 - u8 cfg.color.b, 0⟩
  let buf := buf.mapIdx fun i _ =>
    let p := u8 (i * 256 / size + st.phase)
    cfg.color.blend complement (sinTableAt p)
  (st, buf, pos)

/-- Embedding of PixelEffectEngine::applyPulse. -/
def applyPulse : EffectFnT := fun _ rate cfg st buf tick pos =>
  let interval := getEffectInterval rate cfg.speed / 8
  let size := buf.length
  let center := size / 2
  let st :=
    if u32sub tick st.last_update_tick ≥ interval then
      { st with phase := u32 (st.phase + 1), last_update_tick := u32 tick }
    else st
  let pulse_width := u8 (st.phase % (size / 2 + 10))
  let buf := buf.mapIdx fun i _ =>
    let dist := ((i : Int) - (center : Int)).natAbs
    if dist ≤ pulse_width then
      cfg.color.scale (u8 (255 - dist * 255 / (pulse_width + 1)))
    else PixelColor.Black
  (st, buf, pos)

/-- Embedding of PixelEffectEngine::applyMeteor.  One pixel_random_byte() call
is consumed per pixel for the random trail decay on each gated update. -/
def applyMeteor : EffectFnT := fun r rate cfg st buf tick pos =>
  let interval := getEffectInterval rate cfg.speed
  let size : Int := buf.length
  let meteor_size : Int := max 3 (size / 8)
  if u32sub tick st.last_update_tick ≥ interval then
    -- random decay of trail
    let bp := (List.range buf.length).foldl (fun bp i =>
        let b := if u8 (r bp.2) < 64 then bp.1.set i ((bp.1.getD i PixelColor.Black).scale 192)
                 else bp.1
        (b, bp.2 + 1)) (buf, pos)
    let head := i16 (st.comet_head + 1)
    let head := if head ≥ size * 2 then 0 else head
    let st := { st with comet_head := head }
    -- draw meteor
    let buf := (List.range meteor_size.toNat).foldl (fun bf (i : Nat) =>
        let p := st.comet_head - (i : Int)
        if 0 ≤ p ∧ p < size then
          bf.set p.toNat (cfg.color.scale (u8 (255 - i * 255 / meteor_size.toNat)))
        else bf) bp.1
    ({ st with last_update_tick := u32 tick }, buf, bp.2)
  else (st, buf, pos)

/-- Embedding of PixelEffectEngine::applyRunningLights. -/
def applyRunningLights : EffectFnT := fun _ rate cfg st buf tick pos =>
  let interval := getEffectInterval rate cfg.speed / 4
  let st :=
    if u32sub tick st.last_update_tick ≥ interval then
      { st with phase := u32 (st.phase + 1), last_update_tick := u32 tick }
    else st
  let buf := buf.mapIdx fun i _ =>
    let wave := sinTableAt ((i * 32 + st.phase * 4) % 256)
    cfg.color.scale wave
  (st, buf, pos)

/-- The built-in effect registry, as populated by the PixelEffectEngine
constructor (pixel_effects.cpp): effect id keys mapped to effect functions, in
registration order. -/
def effect_registry : List (String × EffectFnT) :=
  [("SOLID", applySolid), ("BLINK", applyBlink), ("BREATHE", applyBreathe),
   ("CYCLIC", applyCyclic), ("RAINBOW", applyRainbow), ("COLOR_WIPE", applyColorWipe),
   ("THEATER_CHASE", applyTheaterChase), ("SPARKLE", applySparkle),
   ("COMET", applyComet), ("FIRE", applyFire), ("WAVE", applyWave),
   ("TWINKLE", applyTwinkle), ("GRADIENT", applyGradient), ("PULSE", applyPulse),
   ("METEOR", applyMeteor), ("RUNNING_LIGHTS", applyRunningLights)]

/-- Exact-key lookup in the effect registry (the unordered_map find call in
PixelEffectEngine::updateEffect). -/
def lookupExact (reg : List (String × EffectFnT)) (name : String) : Option EffectFnT :=
  (reg.find? fun p => p.1 == name).map Prod.snd

/-- Case-insensitive fallback scan in PixelEffectEngine::updateEffect. -/
def lookupCI (reg : List (String × EffectFnT)) (name : String) : Option EffectFnT :=
  (reg.find? fun p => equalsIgnoreCase p.1 name).map Prod.snd

/-- Embedding of PixelEffectEngine::updateEffect (pixel_effects.cpp take on a
channel whose configured effect identifier is the given name): RAW is a no-op,
then exact registry match, then case-insensitive scan, then solid fallback. -/
def updateEffect (name : String) : EffectFnT := fun r rate cfg st buf tick pos =>
  if equalsIgnoreCase name "RAW" then (st, buf, pos)
  else
    match lookupExact effect_registry name with
    | some fn => fn r rate cfg st buf tick pos
    | none =>
      match lookupCI effect_registry name with
      | some fn => fn r rate cfg st buf tick pos
      | none => applySolid r rate cfg st buf tick pos

end PixelEffectEngine

namespace PixelPreview

/-- Embedding of PixelPreview::getEffectInterval (pixel_preview.cpp). -/
def getEffectInterval (update_rate_hz speed : Nat) : Nat :=
  let base_interval := update_rate_hz / 10
  let clamped_speed := clampSpeed (u8 speed)
  base_interval * (11 - clamped_speed)

/-- Embedding of PixelPreview::applySolid. -/
def applySolid : EffectFnT := fun _ _ cfg st buf _ pos =>
  (st, buf.map fun _ => cfg.color, pos)

/-- Embedding of PixelPreview::applyBlink. -/
def applyBlink : EffectFnT := fun _ rate cfg st buf tick pos =>
  let interval := getEffectInterval rate cfg.speed
  let st :=
    if u32sub tick st.last_update_tick ≥ interval then
      { st with direction := !st.direction, last_update_tick := u32 tick }
    else st
  let color := if st.direction then cfg.color else PixelColor.Black
  (st, buf.map fun _ => color, pos)

/-- Embedding of PixelPreview::applyBreathe. -/
def applyBreathe : EffectFnT := fun _ rate cfg st buf tick pos =>
  let interval := getEffectInterval rate cfg.speed / 4
  let st :=
    if u32sub tick st.last_update_tick ≥ interval then
      let st :=
        if st.breathe_increasing then
          let b := u8 (st.breathe_brightness + 5)
          if b ≥ 250 then { st with breathe_brightness := 255, breathe_increasing := false }
          else { st with breathe_brightness := b }
        else
          if st.breathe_brightness ≤ 5 then
            { st with breathe_brightness := 0, breathe_increasing := true }
          else { st with breathe_brightness := st.breathe_brightness - 5 }
      { st with last_update_tick := u32 tick }
    else st
  let gamma_brightness := gammaCorrect st.breathe_brightness
  let color := cfg.color.scale gamma_brightness
  (st, buf.map fun _ => color, pos)

/-- Embedding of PixelPreview::applyCyclic. -/
def applyCyclic : EffectFnT := fun _ rate cfg st buf tick pos =>
  let interval := getEffectInterval rate cfg.speed
  let size := buf.length
  let st :=
    if u32sub tick st.last_update_tick ≥ interval then
      { st with cyclic_offset := u8 ((st.cyclic_offset + 1) % size),
                last_update_tick := u32 tick }
    else st
  let buf := buf.map fun _ => PixelColor.Black
  let trail_length := min 5 size
  let buf := (List.range trail_length).foldl (fun bf i =>
      let idx := (st.cyclic_offset + i) % size
      let fade := u8 (255 - i * 255 / trail_length)
      bf.set idx (cfg.color.scale fade)) buf
  (st, buf, pos)

/-- Embedding of PixelPreview::applyRainbow. -/
def applyRainbow : EffectFnT := fun _ rate cfg st buf tick pos =>
  let interval := getEffectInterval rate cfg.speed
  let size := buf.length
  let st :=
    if u32sub tick st.last_update_tick ≥ interval then
      { st with rainbow_offset := (st.rainbow_offset + 1) % 256,
                last_update_tick := u32 tick }
    else st
  let buf := buf.mapIdx fun i _ =>
    PixelColor.fromHSV (u8 (i * 256 / size + st.rainbow_offset)) 255 cfg.brightness
  (st, buf, pos)

/-- Embedding of PixelPreview::applyColorWipe. -/
def applyColorWipe : EffectFnT := fun _ rate cfg st buf tick pos =>
  let interval := getEffectInterval rate cfg.speed
  let size := buf.length
  let st :=
    if u32sub tick st.last_update_tick ≥ interval then
      let st :=
        if st.wipe_pixel < size then { st with wipe_pixel := st.wipe_pixel + 1 }
        else { st with wipe_clearing := !st.wipe_clearing, wipe_pixel := 0 }
      { st with last_update_tick := u32 tick }
    else st
  let fill := if st.wipe_clearing then PixelColor.Black else cfg.color
  let rest := if st.wipe_clearing then cfg.color else PixelColor.Black
  let buf := buf.mapIdx fun i _ => if i < st.wipe_pixel then fill else rest
  (st, buf, pos)

/-- Embedding of PixelPreview::applyTheaterChase. -/
def applyTheaterChase : EffectFnT := fun _ rate cfg st buf tick pos =>
  let interval := getEffectInterval rate cfg.speed
  let st :=
    if u32sub tick st.last_update_tick ≥ interval then
      { st with chase_offset := (st.chase_offset + 1) % 3,
                last_update_tick := u32 tick }
    else st
  let buf := buf.mapIdx fun i _ =>
    if (i + st.chase_offset) % 3 = 0 then cfg.color else PixelColor.Black
  (st, buf, pos)

/-- Embedding of PixelPreview::applySparkle. -/
def applySparkle : EffectFnT := fun r rate cfg st buf tick pos =>
  let interval := getEffectInterval rate cfg.speed / 2
  if u32sub tick st.last_update_tick ≥ interval then
    let buf := buf.map fun _ => PixelColor.Black
    let bp := (List.range buf.length).foldl (fun bp i =>
        let b := if u32 (r bp.2) % 20 = 0 then bp.1.set i cfg.color else bp.1
        (b, bp.2 + 1)) (buf, pos)
    ({ st with last_update_tick := u32 tick }, bp.1, bp.2)
  else (st, buf, pos)

/-- Embedding of PixelPreview::applyComet. -/
def applyComet : EffectFnT := fun _ rate cfg st buf tick pos =>
  let interval := getEffectInterval rate cfg.speed
  let size : Int := buf.length
  let tail_length : Int := max 3 (size / 4)
  let st :=
    if u32sub tick st.last_update_tick ≥ interval then
      let head := i16 (st.comet_head + 1)
      let head := if head ≥ size + tail_length then -tail_length else head
      { st with comet_head := head, last_update_tick := u32 tick }
    else st
  let buf := buf.map fun p => p.scale 200
  let buf := (List.range tail_length.toNat).foldl (fun bf (i : Nat) =>
      let p := st.comet_head - (i : Int)
      if 0 ≤ p ∧ p < size then
        bf.set p.toNat (cfg.color.scale (u8 (255 - i * 255 / tail_length.toNat)))
      else bf) buf
  (st, buf, pos)

/-- Embedding of PixelPreview::applyFire.  Unlike the engine-side applyFire,
the preview iterates over all heat_size = max(64, led_count) heat map cells,
guards the cooling divisor with max(size, 1), draws spark positions modulo
min(7, heat_size), and reads the heat map for every pixel below heat_size. -/
def applyFire : EffectFnT := fun r rate cfg st buf tick pos =>
  let interval := getEffectInterval rate cfg.speed / 2
  let size := buf.length
  let heat_size := max 64 size
  let sp :=
    if u32sub tick st.last_update_tick ≥ interval then
      -- cool down every cell
      let hp := (List.range heat_size).foldl (fun hp i =>
          let cooldown := u8 (r hp.2) % (55 * 10 / max size 1 + 2)
          (hp.1.set i (if hp.1.getD i 0 > cooldown then hp.1.getD i 0 - cooldown else 0),
           hp.2 + 1))
        (st.fire_heat, pos)
      -- heat rises: diffuse upward, i from heat_size-1 down to 2
      let hi := heat_size - 1
      let heat := ((List.range (hi - 1)).map (fun k => hi - k)).foldl
        (fun h i => h.set i ((h.getD (i - 1) 0 + h.getD (i - 2) 0 + h.getD (i - 2) 0) / 3)) hp.1
      -- randomly ignite new sparks at the bottom
      let hp2 :=
        if u8 (r hp.2) < 120 then
          let p := u8 (r (hp.2 + 1)) % (min 7 heat_size)
          (heat.set p (min 255 (heat.getD p 0 + 160 + u8 (r (hp.2 + 2)) % 96)), hp.2 + 3)
        else (heat, hp.2 + 1)
      ({ st with fire_heat := hp2.1, last_update_tick := u32 tick }, hp2.2)
    else (st, pos)
  let st := sp.1
  let buf := buf.mapIdx fun i _ =>
    let heat := if i < heat_size then st.fire_heat.getD i 0 else 0
    let c : PixelColor :=
      if heat < 85 then ⟨heat * 3, 0, 0, 0⟩
      else if heat < 170 then ⟨255, (heat - 85) * 3, 0, 0⟩
      else ⟨255, 255, (heat - 170) * 3, 0⟩
    c.scale cfg.brightness
  (st, buf, sp.2)

/-- Embedding of PixelPreview::applyWave. -/
def applyWave : EffectFnT := fun _ rate cfg st buf tick pos =>
  let interval := getEffectInterval rate cfg.speed / 4
  let size := buf.length
  let st :=
    if u32sub tick st.last_update_tick ≥ interval then
      { st with wave_position := u8 (st.wave_position + 1),
                last_update_tick := u32 tick }
    else st
  let buf := buf.mapIdx fun i _ =>
    let phase := u8 (i * 256 / size + st.wave_position)
    cfg.color.scale (sinTableAt phase)
  (st, buf, pos)

/-- Embedding of PixelPreview::applyTwinkle. -/
def applyTwinkle : EffectFnT := fun r rate cfg st buf tick pos =>
  let interval := getEffectInterval rate cfg.speed / 4
  if u32sub tick st.last_update_tick ≥ interval then
    let buf := buf.map fun p => p.scale 245
    let bp := (List.range buf.length).foldl (fun bp i =>
        let b := if u32 (r bp.2) % 50 = 0 then bp.1.set i cfg.color else bp.1
        (b, bp.2 + 1)) (buf, pos)
    ({ st with last_update_tick := u32 tick }, bp.1, bp.2)
  else (st, buf, pos)

/-- Embedding of PixelPreview::applyGradient. -/
def applyGradient : EffectFnT := fun _ rate cfg st buf tick pos =>
  let interval := getEffectInterval rate cfg.speed
  let size := buf.length
  let st :=
    if u32sub tick st.last_update_tick ≥ interval then
      { st with phase := u32 (st.phase + 1), last_update_tick := u32 tick }
    else st
  let complement : PixelColor :=
    ⟨255 - u8 cfg.color.r, 255 - u8 cfg.color.g, 255 - u8 cfg.color.b, 0⟩
  let buf := buf.mapIdx fun i _ =>
    let p := u8 (i * 256 / size + st.phase)
    cfg.color.blend complement (sinTableAt p)
  (st, buf, pos)

/-- Embedding of PixelPreview::applyPulse. -/
def applyPulse : EffectFnT := fun _ rate cfg st buf tick pos =>
  let interval := getEffectInterval rate cfg.speed / 8
  let size := buf.length
  let center := size / 2
  let st :=
    if u32sub tick st.last_update_tick ≥ interval then
      { st with phase := u32 (st.phase + 1), last_update_tick := u32 tick }
    else st
  let pulse_width := u8 (st.phase % (size / 2 + 10))
  let buf := buf.mapIdx fun i _ =>
    let dist := ((i : Int) - (center : Int)).natAbs
    if dist ≤ pulse_width then
      cfg.color.scale (u8 (255 - dist * 255 / (pulse_width + 1)))
    else PixelColor.Black
  (st, buf, pos)

/-- Embedding of PixelPreview::applyMeteor. -/
def applyMeteor : EffectFnT := fun r rate cfg st buf tick pos =>
  let interval := getEffectInterval rate cfg.speed
  let size : Int := buf.length
  let meteor_size : Int := max 3 (size / 8)
  if u32sub tick st.last_update_tick ≥ interval then
    -- random decay of trail
    let bp := (List.range buf.length).foldl (fun bp i =>
        let b := if u8 (r bp.2) < 64 then bp.1.set i ((bp.1.getD i PixelColor.Black).scale 192)
                 else bp.1
        (b, bp.2 + 1)) (buf, pos)
    let head := i16 (st.comet_head + 1)
    let head := if head ≥ size * 2 then 0 else head
    let st := { st with comet_head := head }
    -- draw meteor
    let buf := (List.range meteor_size.toNat).foldl (fun bf (i : Nat) =>
        let p := st.comet_head - (i : Int)
        if 0 ≤ p ∧ p < size then
          bf.set p.toNat (cfg.color.scale (u8 (255 - i * 255 / meteor_size.toNat)))
        else bf) bp.1
    ({ st with last_update_tick := u32 tick }, buf, bp.2)
  else (st, buf, pos)

/-- Embedding of PixelPreview::applyRunningLights. -/
def applyRunningLights : EffectFnT := fun _ rate cfg st buf tick pos =>
  let interval := getEffectInterval rate cfg.speed / 4
  let st :=
    if u32sub tick st.last_update_tick ≥ interval then
      { st with phase := u32 (st.phase + 1), last_update_tick := u32 tick }
    else st
  let buf := buf.mapIdx fun i _ =>
    let wave := sinTableAt ((i * 32 + st.phase * 4) % 256)
    cfg.color.scale wave
  (st, buf, pos)

/-- The slice of PixelPreview instance state relevant to effect switching:
the configured led count, the current effect id string, and the animation
state (state_ together with the separately stored heat_map_, both covered by
the EffectState record). -/
structure PreviewState where
  led_count : Nat
  current_effect : String
  state : EffectState

/-- The preview animation state produced by PixelPreview::setEffect on an
effect change: state_ = EffectState() together with the max(64, led_count)
cell heat map filled with zeros. -/
def resetState (led_count : Nat) : EffectState :=
  { fire_heat := List.replicate (max 64 led_count) 0 }

/-- Embedding of PixelPreview::setEffect (pixel_preview.cpp): when the new id
differs case-insensitively from the current one, store it and reset the
animation state and heat map; otherwise do nothing. -/
def setEffect (pv : PreviewState) (effect_id : String) : PreviewState :=
  if !equalsIgnoreCase pv.current_effect effect_id then
    { pv with current_effect := effect_id, state := resetState pv.led_count }
  else pv

end PixelPreview

/-- Per-channel mutable animation parameters: EffectConfig from
src/include/kd_pixdriver.h, with field defaults as set by the PixelChannel
constructor (kd_pixdriver.cpp).  The mask is a vector of uint8 flags. -/
structure EffectConfig where
  effect : String := "SOLID"
  color : PixelColor := ⟨100, 100, 100, 0⟩
  brightness : Nat := 255
  speed : Nat := 5
  enabled : Bool := true
  mask : List Nat := []

/-- The slice of PixelChannel state relevant to the configuration setters,
together with the animation engine state entry channel_states_[id] that the
effect engine keeps for this channel. -/
structure PixelChannelM where
  pixel_count : Nat
  effect_config : EffectConfig
  anim : EffectState

namespace PixelChannel

/-- Embedding of PixelChannel::setMask (kd_pixdriver.cpp): ignore a mask whose
length differs from the pixel count, otherwise copy it in. -/
def setMask (ch : PixelChannelM) (mask : List Nat) : PixelChannelM :=
  if mask.length ≠ ch.pixel_count then ch
  else { ch with effect_config := { ch.effect_config with mask := mask } }

/-- Embedding of PixelChannel::setEffect (kd_pixdriver.cpp): replace the whole
EffectConfig, then re-apply the mask when it is nonempty and of matching
length. -/
def setEffect (ch : PixelChannelM) (config : EffectConfig) : PixelChannelM :=
  let ch := { ch with effect_config := config }
  if !config.mask.isEmpty && config.mask.length == ch.pixel_count then
    setMask ch config.mask
  else ch

/-- Embedding of PixelChannel::setEffectByID (kd_pixdriver.cpp): overwrite the
effect id string only. -/
def setEffectByID (ch : PixelChannelM) (effect_id : String) : PixelChannelM :=
  { ch with effect_config := { ch.effect_config with effect := effect_id } }

/-- Embedding of PixelChannel::setColor (kd_pixdriver.cpp). -/
def setColor (ch : PixelChannelM) (color : PixelColor) : PixelChannelM :=
  { ch with effect_config := { ch.effect_config with color := color } }

/-- Embedding of PixelChannel::setBrightness (kd_pixdriver.cpp); brightness is
a uint8_t. -/
def setBrightness (ch : PixelChannelM) (brightness : Nat) : PixelChannelM :=
  { ch with effect_config := { ch.effect_config with brightness := u8 brightness } }

/-- Embedding of PixelChannel::setSpeed (kd_pixdriver.cpp): store the uint8
speed clamped into 1..10. -/
def setSpeed (ch : PixelChannelM) (speed : Nat) : PixelChannelM :=
  { ch with effect_config := { ch.effect_config with speed := clampSpeed (u8 speed) } }

/-- Embedding of PixelChannel::setEnabled (kd_pixdriver.cpp). -/
def setEnabled (ch : PixelChannelM) (enabled : Bool) : PixelChannelM :=
  { ch with effect_config := { ch.effect_config with enabled := enabled } }

/-- The per-channel values the persistence collaborator may hold: each field
is present or absent independently (NVS get calls that fail leave the
corresponding EffectConfig field untouched). -/
structure NvsChannelRecord where
  effect : Option String := none
  color : Option PixelColor := none
  brightness : Option Nat := none
  speed : Option Nat := none
  enabled : Option Nat := none

/-- Embedding of PixelChannel::loadFromNVS (kd_pixdriver.cpp): overwrite each
EffectConfig field for which a stored value exists, verbatim (the stored
brightness, speed and enabled values are uint8_t). -/
def loadFromNVS (ch : PixelChannelM) (stored : NvsChannelRecord) : PixelChannelM :=
  let cfg := ch.effect_config
  let cfg := match stored.effect with | some e => { cfg with effect := e } | none => cfg
  let cfg := match stored.color with | some c => { cfg with color := c } | none => cfg
  let cfg := match stored.brightness with | some v => { cfg with brightness := u8 v } | none => cfg
  let cfg := match stored.speed with | some v => { cfg with speed := u8 v } | none => cfg
  let cfg := match stored.enabled with | some v => { cfg with enabled := u8 v != 0 } | none => cfg
  { ch with effect_config := cfg }

end PixelChannel

/-- The PixelDriver static channel bookkeeping (kd_pixdriver.cpp): the channel
id list in insertion order, the main channel id (-1 for none), and the
monotonic next id counter. -/
structure DriverState where
  channels : List Int
  main_channel_id : Int
  next_channel_id : Int

/-- The driver state right after PixelDriver::initialize. -/
def DriverState.init : DriverState := ⟨[], -1, 0⟩

namespace PixelDriver

/-- Embedding of PixelDriver::addChannel (kd_pixdriver.cpp).  The ok flag
stands for the success of the hardware initialization of the new channel
(semaphore allocation, I2S setup, task creation); on failure the function
returns -1 having consumed the id but leaving the channel set and the main
channel reference unchanged. -/
def addChannel (s : DriverState) (ok : Bool) : DriverState :=
  let id := s.next_channel_id
  let s1 := { s with next_channel_id := id + 1 }
  if !ok then s1
  else
    let s2 := if s1.main_channel_id = -1 then { s1 with main_channel_id := id } else s1
    { s2 with channels := s2.channels ++ [id] }

/-- Embedding of PixelDriver::removeChannel (kd_pixdriver.cpp): no-op for an
unknown id; when removing the main channel, reassign main to the first
surviving channel in the list, or -1 when none remains. -/
def removeChannel (s : DriverState) (channel_id : Int) : DriverState :=
  if channel_id ∉ s.channels then s
  else
    let s1 :=
      if s.main_channel_id = channel_id then
        { s with main_channel_id :=
            match s.channels.find? (fun i => i ≠ channel_id) with
            | some i => i
            | none => -1 }
      else s
    { s1 with channels := s1.channels.erase channel_id }

/-- One channel-set operation on the driver. -/
inductive DriverOp where
  | add (ok : Bool)
  | remove (id : Int)

/-- Apply one operation. -/
def applyOp (s : DriverState) : DriverOp → DriverState
  | .add ok => addChannel s ok
  | .remove id => removeChannel s id

/-- Run a sequence of addChannel / removeChannel operations from the freshly
initialized driver state. -/
def run (ops : List DriverOp) : DriverState := ops.foldl applyOp DriverState.init

/-- Bookkeeping invariant of the driver channel set: the ids are strictly
increasing in insertion order (ids are assigned monotonically and never
reused), every id is below the next-id counter, and the main channel id is the
id of the first stored channel, or -1 when no channel exists. -/
def Invariant (s : DriverState) : Prop :=
  s.channels.Pairwise (· < ·) ∧
  (∀ id ∈ s.channels, 0 ≤ id ∧ id < s.next_channel_id) ∧
  0 ≤ s.next_channel_id ∧
  s.main_channel_id = s.channels.headD (-1)

/-- CURRENT_PER_CHANNEL_MA from kd_pixdriver.h. -/
def CURRENT_PER_CHANNEL_MA : Nat := 20

/-- SYSTEM_RESERVE_MA from kd_pixdriver.h. -/
def SYSTEM_RESERVE_MA : Nat := 400

end PixelDriver

namespace PixelChannel

/-- Embedding of PixelChannel::getCurrentConsumption (kd_pixdriver.cpp):
sum of component * 20 / 255 over all pixels of the raw pixel buffer, the w
component counted only for RGBW channels. -/
def getCurrentConsumption (format : PixelFormat) (pixel_buffer : List PixelColor) : Nat :=
  pixel_buffer.foldl (fun total_ma pixel =>
    let total_ma := total_ma + pixel.r * PixelDriver.CURRENT_PER_CHANNEL_MA / 255
    let total_ma := total_ma + pixel.g * PixelDriver.CURRENT_PER_CHANNEL_MA / 255
    let total_ma := total_ma + pixel.b * PixelDriver.CURRENT_PER_CHANNEL_MA / 255
    if format = PixelFormat.RGBW then
      total_ma + pixel.w * PixelDriver.CURRENT_PER_CHANNEL_MA / 255
    else total_ma) 0

end PixelChannel

namespace PixelDriver

/-- Embedding of PixelDriver::getTotalCurrentConsumption: sum of
getCurrentConsumption over all channels, each given by its format and raw
pixel buffer. -/
def getTotalCurrentConsumption (channels : List (PixelFormat × List PixelColor)) : Nat :=
  channels.foldl (fun total ch => total + PixelChannel.getCurrentConsumption ch.1 ch.2) 0

/-- The available current budget computed inside
PixelDriver::getCurrentScaleFactor: current_limit_ma - SYSTEM_RESERVE_MA when
the limit exceeds the reserve, otherwise 0. -/
def availableBudget (current_limit_ma : Int) : Nat :=
  if current_limit_ma > (SYSTEM_RESERVE_MA : Int) then
    (current_limit_ma - (SYSTEM_RESERVE_MA : Int)).toNat
  else 0

/-- Embedding of PixelDriver::getCurrentScaleFactor (kd_pixdriver.cpp), with
the float arithmetic carried out exactly in the rationals. -/
def getCurrentScaleFactor (current_limit_ma : Int)
    (channels : List (PixelFormat × List PixelColor)) : ℚ :=
  if current_limit_ma ≤ 0 then 1
  else
    let total := getTotalCurrentConsumption channels
    let available : Nat := availableBudget current_limit_ma
    if total ≤ available then 1
    else if available = 0 then 0
    else (available : ℚ) / (total : ℚ)

end PixelDriver

/-- The raw and scaled pixel buffers of a channel (pixel_buffer_ and
scaled_buffer_ in kd_pixdriver.h). -/
structure ChannelBuffers where
  pixel_buffer : List PixelColor
  scaled_buffer : List PixelColor

/-- Embedding of static_cast to uint8_t applied to a non-negative float value:
truncation toward zero, i.e. the floor for non-negative arguments. -/
def trunc8 (q : ℚ) : Nat := (Int.floor q).toNat

namespace PixelChannel

/-- Embedding of PixelChannel::applyCurrentScaling (kd_pixdriver.cpp): combine
the channel brightness with the shared scale factor (clipped to at most 1) and
write the truncated scaled components into the scaled buffer, reading the raw
pixel buffer. -/
def applyCurrentScaling (ch : ChannelBuffers) (brightness : Nat) (scale_factor : ℚ) :
    ChannelBuffers :=
  let brightness_scale : ℚ := (brightness : ℚ) / 255
  let combined_scale := brightness_scale * min scale_factor 1
  { ch with scaled_buffer := ch.pixel_buffer.map fun orig =>
      ⟨trunc8 (orig.r * combined_scale), trunc8 (orig.g * combined_scale),
       trunc8 (orig.b * combined_scale), trunc8 (orig.w * combined_scale)⟩ }

end PixelChannel

/-- WS2812B_BYTES_PER_COLOR from include/i2s_pixel_protocol.h. -/
def WS2812B_BYTES_PER_COLOR : Nat := 3

/-- WS2812B_BYTES_PER_RGB from include/i2s_pixel_protocol.h (9). -/
def WS2812B_BYTES_PER_RGB : Nat := WS2812B_BYTES_PER_COLOR * 3

/-- WS2812B_BYTES_PER_RGBW from include/i2s_pixel_protocol.h (12). -/
def WS2812B_BYTES_PER_RGBW : Nat := WS2812B_BYTES_PER_COLOR * 4

/-- WS2812B_BITRATE from include/i2s_pixel_protocol.h. -/
def WS2812B_BITRATE : Nat := 2600000

/-- WS2812B_RESET_BITS from include/i2s_pixel_protocol.h. -/
def WS2812B_RESET_BITS : Nat := 50 * WS2812B_BITRATE / 1000000 + 1

/-- WS2812B_RESET_BYTES from include/i2s_pixel_protocol.h (evaluates to 17). -/
def WS2812B_RESET_BYTES : Nat := (WS2812B_RESET_BITS + 7) / 8

/-- Bytes per pixel for a format: 9 for RGB, 12 for RGBW (kd_pixdriver.cpp). -/
def bytesPerPixel (format : PixelFormat) : Nat :=
  match format with
  | .RGBW => WS2812B_BYTES_PER_RGBW
  | .RGB => WS2812B_BYTES_PER_RGB

/-- Modelled from the spec: the 24-bit encoding of one 8-bit color value.  The
256-entry lookup table ws2812b_color_lookup is declared extern in
include/i2s_pixel_protocol.h but its definition is not among the sources under
src; per the spec each source bit becomes a 3-bit group, 0b100 for a 0 bit and
0b110 for a 1 bit, most significant source bit first. -/
def ws2812b_encode24 (v : Nat) : Nat :=
  (List.range 8).foldl (fun acc k =>
    acc * 8 + (if v / 2 ^ (7 - k) % 2 = 1 then 6 else 4)) 0

/-- Modelled from the spec: byte j (j = 0, 1, 2) of the 3-byte lookup entry
ws2812b_color_lookup[v]. -/
def ws2812b_color_lookup (v j : Nat) : Nat :=
  ws2812b_encode24 (u8 v) / 2 ^ (8 * (2 - j)) % 256

/-- The mask test in PixelChannel::convertToI2SBuffer: a pixel shows its color
when the mask is empty, or when its index is inside the mask and the mask byte
is non-zero. -/
def maskAllows (mask : List Nat) (i : Nat) : Bool :=
  mask.isEmpty || (decide (i < mask.length) && (mask.getD i 0 != 0))

/-- The byte the encoder produces for offset d (0 ≤ d < bytes-per-pixel)
inside one pixel: the d-th byte of the G, R, B, [W] lookup sequences, the
components forced to zero for a masked pixel. -/
def pixelSeqByte (p : PixelColor) (allowed : Bool) (d : Nat) : Nat :=
  let g := if allowed then p.g else 0
  let r := if allowed then p.r else 0
  let b := if allowed then p.b else 0
  let w := if allowed then p.w else 0
  if d < 3 then ws2812b_color_lookup g d
  else if d < 6 then ws2812b_color_lookup r (d - 3)
  else if d < 9 then ws2812b_color_lookup b (d - 6)
  else ws2812b_color_lookup w (d - 9)

/-- The writes of one iteration of the pixel loop of
PixelChannel::convertToI2SBuffer: for j = 0, 1, 2 write the G, R, B lookup
bytes (and for RGBW the W bytes in the second loop), every destination index
XOR 1 to compensate the I2S 16-bit word byte order.  The j loops (3 constant
iterations each) are unrolled. -/
def writePixel (format : PixelFormat) (mask : List Nat) (i : Nat) (pixel : PixelColor)
    (buf : List Nat) : List Nat :=
  let base_idx := i * bytesPerPixel format
  let allowed := maskAllows mask i
  let g := if allowed then pixel.g else 0
  let r := if allowed then pixel.r else 0
  let b := if allowed then pixel.b else 0
  let w := if allowed then pixel.w else 0
  let buf := ((buf.set ((base_idx + 0) ^^^ 1) (ws2812b_color_lookup g 0)).set
      ((base_idx + 3 + 0) ^^^ 1) (ws2812b_color_lookup r 0)).set
      ((base_idx + 2 * 3 + 0) ^^^ 1) (ws2812b_color_lookup b 0)
  let buf := ((buf.set ((base_idx + 1) ^^^ 1) (ws2812b_color_lookup g 1)).set
      ((base_idx + 3 + 1) ^^^ 1) (ws2812b_color_lookup r 1)).set
      ((base_idx + 2 * 3 + 1) ^^^ 1) (ws2812b_color_lookup b 1)
  let buf := ((buf.set ((base_idx + 2) ^^^ 1) (ws2812b_color_lookup g 2)).set
      ((base_idx + 3 + 2) ^^^ 1) (ws2812b_color_lookup r 2)).set
      ((base_idx + 2 * 3 + 2) ^^^ 1) (ws2812b_color_lookup b 2)
  match format with
  | .RGBW =>
    ((buf.set ((base_idx + 3 * 3 + 0) ^^^ 1) (ws2812b_color_lookup w 0)).set
        ((base_idx + 3 * 3 + 1) ^^^ 1) (ws2812b_color_lookup w 1)).set
        ((base_idx + 3 * 3 + 2) ^^^ 1) (ws2812b_color_lookup w 2)
  | .RGB => buf

/-- Embedding of PixelChannel::convertToI2SBuffer (kd_pixdriver.cpp): zero the
bytes from data_size to the end of the I2S buffer, then run the pixel write
loop over all pixels. -/
def convertToI2SBuffer (format : PixelFormat) (mask : List Nat)
    (pixels : List PixelColor) (i2s_buffer : List Nat) : List Nat :=
  let data_size := pixels.length * bytesPerPixel format
  let i2s_buffer := i2s_buffer.take data_size ++
    List.replicate (i2s_buffer.length - data_size) 0
  (pixels.enum).foldl (fun bf ip => writePixel format mask ip.1 ip.2 bf) i2s_buffer

/-
  Helper lemmas.
-/

/-- XOR with 1 of an even number adds one. -/
theorem xor_one_of_even {k : Nat} (h : k % 2 = 0) : k ^^^ 1 = k + 1 := by
  obtain ⟨q, rfl⟩ : ∃ q, k = 2 * q := ⟨k / 2, by omega⟩
  have h2 := Nat.xor_bit false q true 0
  simp [Nat.bit] at h2
  exact h2

/-- XOR with 1 of an odd number subtracts one. -/
theorem xor_one_of_odd {k : Nat} (h : k % 2 = 1) : k ^^^ 1 = k - 1 := by
  obtain ⟨q, rfl⟩ : ∃ q, k = 2 * q + 1 := ⟨k / 2, by omega⟩
  have h2 := Nat.xor_bit true q true 0
  simp [Nat.bit] at h2
  rw [h2]
  omega

/-- XOR with 1 moves an index by at most one position upward. -/
theorem xor_one_le (k : Nat) : k ^^^ 1 ≤ k + 1 := by
  rcases Nat.mod_two_eq_zero_or_one k with h | h
  · rw [xor_one_of_even h]
  · rw [xor_one_of_odd h]; omega

/-- XOR with 1 is an involution. -/
theorem xor_one_invol (m : Nat) : m ^^^ 1 ^^^ 1 = m := Nat.xor_cancel_right 1 m

/-- XOR with 1 is injective. -/
theorem xor_one_inj_iff {a b : Nat} : a ^^^ 1 = b ^^^ 1 ↔ a = b := Nat.xor_left_inj

/-- Transposing XOR 1 across an equation. -/
theorem xor_one_eq_iff {a m : Nat} : a ^^^ 1 = m ↔ a = m ^^^ 1 := by
  constructor
  · rintro rfl; exact (xor_one_invol a).symm
  · rintro rfl; exact xor_one_invol m

/-- The speed clamp is the min-max clamp into 1..10. -/
theorem clampSpeed_eq (s : Nat) : clampSpeed s = min (max s 1) 10 := by
  unfold clampSpeed
  split
  · omega
  · split <;> omega

/-- Reading back a list after a set: the new value at the written in-bounds
index, the old value elsewhere. -/
theorem getD_set (l : List Nat) (a m v : Nat) :
    (l.set a v).getD m 0 = if a = m ∧ m < l.length then v else l.getD m 0 := by
  induction l generalizing a m with
  | nil => simp
  | cons h t ih =>
    cases a with
    | zero =>
      cases m with
      | zero => simp
      | succ m => simp
    | succ a =>
      cases m with
      | zero => simp
      | succ m =>
        simp only [List.set, List.getD, List.get?, List.length_cons]
        have := ih a m
        simp only [List.getD] at this
        rw [this]
        by_cases hc : a = m ∧ m < t.length
        · rw [if_pos hc, if_pos ⟨by omega, by omega⟩]
        · rw [if_neg hc, if_neg (by omega)]

/-- Reading a set at a different index leaves the old value. -/
theorem getD_set_ne (l : List Nat) (a m v : Nat) (h : a ≠ m) :
    (l.set a v).getD m 0 = l.getD m 0 := by
  rw [getD_set, if_neg (fun hx => h hx.1)]

/-- Reading a set at the written in-bounds index gives the new value. -/
theorem getD_set_eq (l : List Nat) (a v : Nat) (h : a < l.length) :
    (l.set a v).getD a 0 = v := by
  rw [getD_set, if_pos ⟨rfl, h⟩]

/-
  C7: speed to interval mapping.
-/

/-- C7: for every update rate and every uint8 speed value, the animation
gating interval equals (update_rate_hz / 10) * (11 - clamp(speed, 1, 10)),
identically in the engine and the preview, and for a fixed rate the interval
is antitone in the speed on the uint8 domain: a higher speed never yields a
longer interval. -/
theorem c7_effect_interval_formula (rate s s1 s2 : Nat)
    (hs : s ≤ 255) (hs2 : s2 ≤ 255) (h12 : s1 ≤ s2) :
    PixelEffectEngine.getEffectInterval rate s =
      (rate / 10) * (11 - min (max s 1) 10) ∧
    PixelPreview.getEffectInterval rate s = PixelEffectEngine.getEffectInterval rate s ∧
    PixelEffectEngine.getEffectInterval rate s2 ≤ PixelEffectEngine.getEffectInterval rate s1 := by
  refine ⟨?_, rfl, ?_⟩
  · simp only [PixelEffectEngine.getEffectInterval, clampSpeed_eq, u8]
    rw [Nat.mod_eq_of_lt (show s < 256 by omega)]
  · simp only [PixelEffectEngine.getEffectInterval, clampSpeed_eq, u8]
    have h2 : s2 % 256 = s2 := Nat.mod_eq_of_lt (by omega)
    have h1 : s1 % 256 ≤ s1 := Nat.mod_le s1 256
    apply Nat.mul_le_mul_left
    omega

/-- Witness for C7 at rate 60 Hz: speed 10 yields an interval no longer than
speed 1. -/
theorem c7_effect_interval_formula_witness :
    PixelEffectEngine.getEffectInterval 60 10 ≤ PixelEffectEngine.getEffectInterval 60 1 :=
  (c7_effect_interval_formula 60 5 1 10 (by decide) (by decide) (by decide)).2.2

/-
  C10: speed range invariant.
-/

/-- C10 counterexample: PixelChannel::setEffect stores the incoming speed
verbatim, so setEffect with speed 0 leaves a stored speed outside 1..10,
contradicting the claim that every effect-parameter write keeps the stored
speed in [1, 10]. -/
theorem c10_counterexample :
    (PixelChannel.setEffect ⟨10, {}, {}⟩ { speed := 0 }).effect_config.speed = 0 ∧
    ¬(1 ≤ (PixelChannel.setEffect ⟨10, {}, {}⟩ { speed := 0 }).effect_config.speed) := by
  constructor <;> decide

/-- C10 as amended: only setSpeed clamps into [1, 10]; setEffect stores the
given speed verbatim, and loadFromNVS stores a persisted speed byte verbatim
(absent a stored value the speed is left untouched), so out-of-range stored
speeds are possible through those paths. -/
theorem c10_speed_clamping (ch : PixelChannelM) (s : Nat) (cfg : EffectConfig)
    (stored : PixelChannel.NvsChannelRecord) :
    (1 ≤ (PixelChannel.setSpeed ch s).effect_config.speed ∧
      (PixelChannel.setSpeed ch s).effect_config.speed ≤ 10) ∧
    (PixelChannel.setEffect ch cfg).effect_config.speed = cfg.speed ∧
    (PixelChannel.loadFromNVS ch stored).effect_config.speed =
      (match stored.speed with
       | some v => u8 v
       | none => ch.effect_config.speed) := by
  refine ⟨?_, ?_, ?_⟩
  · unfold PixelChannel.setSpeed clampSpeed
    constructor <;> (simp only; split <;> try split) <;> omega
  · simp only [PixelChannel.setEffect, PixelChannel.setMask]
    split
    · split <;> simp
    · simp
  · unfold PixelChannel.loadFromNVS
    rcases stored with ⟨e, c, b, sp, en⟩
    cases e <;> cases c <;> cases b <;> cases sp <;> cases en <;> simp

/-
  C9: main channel bookkeeping.
-/

/-- Appending to a nonempty list keeps its first element. -/
theorem headD_append {l l2 : List Int} (d : Int) (h : l ≠ []) :
    (l ++ l2).headD d = l.headD d := by
  cases l with
  | nil => exact absurd rfl h
  | cons a t => rfl

/-- Reduction of addChannel on hardware-initialization failure: only the next
id counter advances. -/
theorem addChannel_false (s : DriverState) :
    PixelDriver.addChannel s false =
      { s with next_channel_id := s.next_channel_id + 1 } := rfl

/-- Reduction of a successful addChannel when no main channel exists. -/
theorem addChannel_true_nomain (s : DriverState) (h : s.main_channel_id = -1) :
    PixelDriver.addChannel s true =
      ⟨s.channels ++ [s.next_channel_id], s.next_channel_id, s.next_channel_id + 1⟩ := by
  unfold PixelDriver.addChannel
  rw [if_neg (by simp), if_pos (by simpa using h)]

/-- Reduction of a successful addChannel when a main channel exists. -/
theorem addChannel_true_main (s : DriverState) (h : s.main_channel_id ≠ -1) :
    PixelDriver.addChannel s true =
      { s with channels := s.channels ++ [s.next_channel_id],
               next_channel_id := s.next_channel_id + 1 } := by
  unfold PixelDriver.addChannel
  rw [if_neg (by simp), if_neg (by simpa using h)]

/-- Reduction of removeChannel on an unknown id. -/
theorem removeChannel_not_mem (s : DriverState) (id : Int) (h : id ∉ s.channels) :
    PixelDriver.removeChannel s id = s := by
  unfold PixelDriver.removeChannel
  rw [if_pos (by simpa using h)]

/-- Reduction of removeChannel on the main channel. -/
theorem removeChannel_main (s : DriverState) (id : Int) (hmem : id ∈ s.channels)
    (h : s.main_channel_id = id) :
    PixelDriver.removeChannel s id =
      ⟨s.channels.erase id,
       (match s.channels.find? (fun i => i ≠ id) with
        | some i => i
        | none => -1),
       s.next_channel_id⟩ := by
  unfold PixelDriver.removeChannel
  rw [if_neg (by simpa using hmem), if_pos h]

/-- Reduction of removeChannel on a non-main channel. -/
theorem removeChannel_other (s : DriverState) (id : Int) (hmem : id ∈ s.channels)
    (h : s.main_channel_id ≠ id) :
    PixelDriver.removeChannel s id = { s with channels := s.channels.erase id } := by
  unfold PixelDriver.removeChannel
  rw [if_neg (by simpa using hmem), if_neg h]

/-- The driver invariant holds for the freshly initialized state. -/
theorem invariant_init : PixelDriver.Invariant DriverState.init := by
  refine ⟨List.Pairwise.nil, ?_, ?_, rfl⟩ <;> simp [DriverState.init]

/-- addChannel preserves the driver invariant. -/
theorem invariant_addChannel (s : DriverState) (ok : Bool)
    (h : PixelDriver.Invariant s) : PixelDriver.Invariant (PixelDriver.addChannel s ok) := by
  obtain ⟨hp, hb, hn, hm⟩ := h
  cases ok with
  | false =>
    rw [addChannel_false]
    refine ⟨hp, ?_, by simp; omega, hm⟩
    intro id hid
    have := hb id hid
    simp only
    omega
  | true =>
    by_cases hmain : s.main_channel_id = -1
    · have hempty : s.channels = [] := by
        cases hc : s.channels with
        | nil => rfl
        | cons a t =>
          rw [hc] at hm
          simp only [List.headD] at hm
          have := (hb a (by rw [hc]; exact List.mem_cons_self a t)).1
          omega
      rw [addChannel_true_nomain s hmain]
      refine ⟨?_, ?_, ?_, ?_⟩ <;> simp [hempty] <;> omega
    · rw [addChannel_true_main s hmain]
      have hne : s.channels ≠ [] := by
        intro hc
        rw [hc] at hm
        exact hmain hm
      refine ⟨?_, ?_, ?_, ?_⟩
      · simp only
        rw [List.pairwise_append]
        refine ⟨hp, List.pairwise_singleton _ _, ?_⟩
        intro a ha b hb2
        simp only [List.mem_singleton] at hb2
        subst hb2
        exact (hb a ha).2
      · intro id hid
        simp only [List.mem_append, List.mem_singleton] at hid
        simp only
        rcases hid with hid | hid
        · have := hb id hid
          omega
        · omega
      · simp only
        omega
      · simp only
        rw [headD_append _ hne]
        exact hm

/-- removeChannel preserves the driver invariant. -/
theorem invariant_removeChannel (s : DriverState) (id : Int)
    (h : PixelDriver.Invariant s) : PixelDriver.Invariant (PixelDriver.removeChannel s id) := by
  obtain ⟨hp, hb, hn, hm⟩ := h
  by_cases hmem : id ∈ s.channels
  · by_cases heq : s.main_channel_id = id
    · rw [removeChannel_main s id hmem heq]
      cases hc : s.channels with
      | nil => rw [hc] at hmem; simp at hmem
      | cons a t =>
        rw [hc] at hm hp hb
        simp only [List.headD] at hm
        have haid : a = id := by omega
        subst haid
        cases ht : t with
        | nil =>
          subst ht
          refine ⟨?_, ?_, ?_, ?_⟩
          · simp
          · simp
          · exact hn
          · simp [List.find?]
        | cons a2 t2 =>
          subst ht
          have ha2 : a < a2 := (List.pairwise_cons.mp hp).1 a2 (by simp)
          have hfind : (a :: a2 :: t2).find? (fun i => i ≠ a) = some a2 := by
            simp only [List.find?]
            rw [decide_eq_false (by simp), decide_eq_true (by omega : a2 ≠ a)]
          simp only [hfind, List.erase_cons_head]
          refine ⟨?_, ?_, ?_, ?_⟩
          · exact (List.pairwise_cons.mp hp).2
          · intro i hi
            exact hb i (List.mem_cons_of_mem a hi)
          · exact hn
          · rfl
    · rw [removeChannel_other s id hmem heq]
      cases hc : s.channels with
      | nil => rw [hc] at hmem; simp at hmem
      | cons a t =>
        rw [hc] at hm hp hb hmem
        simp only [List.headD] at hm
        have haid : ¬(a == id) := by
          intro hcon
          have : a = id := by simpa using hcon
          omega
        have herase : (a :: t).erase id = a :: t.erase id := by
          rw [List.erase_cons_tail]
          simpa using haid
        rw [herase]
        refine ⟨?_, ?_, ?_, ?_⟩
        · rw [List.pairwise_cons] at hp ⊢
          refine ⟨?_, hp.2.sublist (List.erase_sublist id t)⟩
          intro b hbmem
          exact hp.1 b (List.mem_of_mem_erase hbmem)
        · intro i hi
          simp only [List.mem_cons] at hi
          rcases hi with hi | hi
          · exact hb i (by simp [hi])
          · exact hb i (List.mem_cons_of_mem a (List.mem_of_mem_erase hi))
        · exact hn
        · simpa using hm
  · rw [removeChannel_not_mem s id hmem]
    exact ⟨hp, hb, hn, hm⟩

/-- The driver invariant holds after any operation sequence. -/
theorem invariant_run_aux (ops : List PixelDriver.DriverOp) :
    ∀ s, PixelDriver.Invariant s → PixelDriver.Invariant (ops.foldl PixelDriver.applyOp s) := by
  induction ops with
  | nil => intro s h; exact h
  | cons op rest ih =>
    intro s h
    apply ih
    cases op with
    | add ok => exact invariant_addChannel s ok h
    | remove id => exact invariant_removeChannel s id h

/-- C9: after every sequence of addChannel / removeChannel operations the main
channel reference is the lowest surviving channel id, or -1 when no channel
exists; removing the current main channel from a two-channel set makes the
other channel the main one; and a failed addChannel (hardware initialization
failure, result -1) leaves both the channel set and the main channel
reference unchanged. -/
theorem c9_main_channel_invariant (ops : List PixelDriver.DriverOp) (i j : Int) :
    ((PixelDriver.run ops).channels = [] → (PixelDriver.run ops).main_channel_id = -1) ∧
    ((PixelDriver.run ops).channels ≠ [] →
      (PixelDriver.run ops).main_channel_id ∈ (PixelDriver.run ops).channels ∧
      ∀ id ∈ (PixelDriver.run ops).channels, (PixelDriver.run ops).main_channel_id ≤ id) ∧
    ((PixelDriver.run ops).channels = [i, j] →
      (PixelDriver.removeChannel (PixelDriver.run ops) i).main_channel_id = j) ∧
    ((PixelDriver.addChannel (PixelDriver.run ops) false).channels =
        (PixelDriver.run ops).channels ∧
      (PixelDriver.addChannel (PixelDriver.run ops) false).main_channel_id =
        (PixelDriver.run ops).main_channel_id) := by
  have hinv : PixelDriver.Invariant (PixelDriver.run ops) :=
    invariant_run_aux ops DriverState.init invariant_init
  obtain ⟨hp, hb, hn, hm⟩ := hinv
  refine ⟨?_, ?_, ?_, ?_, ?_⟩
  · intro h
    rw [hm, h]
    rfl
  · intro h
    cases hc : (PixelDriver.run ops).channels with
    | nil => exact absurd hc h
    | cons a t =>
      rw [hc] at hm hp
      simp only [List.headD] at hm
      constructor
      · rw [hm]
        exact List.mem_cons_self a t
      · intro id hid
        simp only [List.mem_cons] at hid
        rw [hm]
        rcases hid with rfl | hid
        · omega
        · have := (List.pairwise_cons.mp hp).1 id hid
          omega
  · intro hc
    have hmem : i ∈ (PixelDriver.run ops).channels := by rw [hc]; simp
    have hmain : (PixelDriver.run ops).main_channel_id = i := by
      rw [hm, hc]; rfl
    rw [removeChannel_main _ i hmem hmain]
    have hij : i < j := by
      rw [hc] at hp
      have := List.pairwise_cons.mp hp
      exact this.1 j (by simp)
    rw [hc]
    simp [List.find?, hij.ne']
  · rw [addChannel_false]
  · rw [addChannel_false]

/-- Witness for C9: adding two channels then removing the main channel (id 0)
makes the remaining channel id 1 the main channel. -/
theorem c9_main_channel_invariant_witness :
    (PixelDriver.removeChannel
        (PixelDriver.run [PixelDriver.DriverOp.add true, PixelDriver.DriverOp.add true])
        0).main_channel_id = 1 :=
  (c9_main_channel_invariant [PixelDriver.DriverOp.add true, PixelDriver.DriverOp.add true]
    0 1).2.2.1 (by decide)

/-
  Protocol encoder lemmas (C2, C5).
-/

/-- Bytes per pixel is positive. -/
theorem bytesPerPixel_pos (format : PixelFormat) : 0 < bytesPerPixel format := by
  cases format <;> decide

/-- writePixel keeps the buffer length. -/
theorem writePixel_length (format : PixelFormat) (mask : List Nat) (i : Nat)
    (pixel : PixelColor) (buf : List Nat) :
    (writePixel format mask i pixel buf).length = buf.length := by
  cases format <;> simp [writePixel, List.length_set]

/-- Unfolding of writePixel for the RGB format: nine set operations with the
byte offsets written as single literals. -/
theorem writePixel_RGB_eq (mask : List Nat) (i : Nat) (pixel : PixelColor)
    (buf : List Nat) :
    writePixel PixelFormat.RGB mask i pixel buf =
      ((((((((buf.set ((i * 9 + 0) ^^^ 1)
        (ws2812b_color_lookup (if maskAllows mask i then pixel.g else 0) 0)).set
        ((i * 9 + 3) ^^^ 1)
        (ws2812b_color_lookup (if maskAllows mask i then pixel.r else 0) 0)).set
        ((i * 9 + 6) ^^^ 1)
        (ws2812b_color_lookup (if maskAllows mask i then pixel.b else 0) 0)).set
        ((i * 9 + 1) ^^^ 1)
        (ws2812b_color_lookup (if maskAllows mask i then pixel.g else 0) 1)).set
        ((i * 9 + 4) ^^^ 1)
        (ws2812b_color_lookup (if maskAllows mask i then pixel.r else 0) 1)).set
        ((i * 9 + 7) ^^^ 1)
        (ws2812b_color_lookup (if maskAllows mask i then pixel.b else 0) 1)).set
        ((i * 9 + 2) ^^^ 1)
        (ws2812b_color_lookup (if maskAllows mask i then pixel.g else 0) 2)).set
        ((i * 9 + 5) ^^^ 1)
        (ws2812b_color_lookup (if maskAllows mask i then pixel.r else 0) 2)).set
        ((i * 9 + 8) ^^^ 1)
        (ws2812b_color_lookup (if maskAllows mask i then pixel.b else 0) 2) := rfl

/-- Unfolding of writePixel for the RGBW format: twelve set operations with
the byte offsets written as single literals. -/
theorem writePixel_RGBW_eq (mask : List Nat) (i : Nat) (pixel : PixelColor)
    (buf : List Nat) :
    writePixel PixelFormat.RGBW mask i pixel buf =
      (((((((((((buf.set ((i * 12 + 0) ^^^ 1)
        (ws2812b_color_lookup (if maskAllows mask i then pixel.g else 0) 0)).set
        ((i * 12 + 3) ^^^ 1)
        (ws2812b_color_lookup (if maskAllows mask i then pixel.r else 0) 0)).set
        ((i * 12 + 6) ^^^ 1)
        (ws2812b_color_lookup (if maskAllows mask i then pixel.b else 0) 0)).set
        ((i * 12 + 1) ^^^ 1)
        (ws2812b_color_lookup (if maskAllows mask i then pixel.g else 0) 1)).set
        ((i * 12 + 4) ^^^ 1)
        (ws2812b_color_lookup (if maskAllows mask i then pixel.r else 0) 1)).set
        ((i * 12 + 7) ^^^ 1)
        (ws2812b_color_lookup (if maskAllows mask i then pixel.b else 0) 1)).set
        ((i * 12 + 2) ^^^ 1)
        (ws2812b_color_lookup (if maskAllows mask i then pixel.g else 0) 2)).set
        ((i * 12 + 5) ^^^ 1)
        (ws2812b_color_lookup (if maskAllows mask i then pixel.r else 0) 2)).set
        ((i * 12 + 8) ^^^ 1)
        (ws2812b_color_lookup (if maskAllows mask i then pixel.b else 0) 2)).set
        ((i * 12 + 9) ^^^ 1)
        (ws2812b_color_lookup (if maskAllows mask i then pixel.w else 0) 0)).set
        ((i * 12 + 10) ^^^ 1)
        (ws2812b_color_lookup (if maskAllows mask i then pixel.w else 0) 1)).set
        ((i * 12 + 11) ^^^ 1)
        (ws2812b_color_lookup (if maskAllows mask i then pixel.w else 0) 2) := rfl

/-- Characterization of one RGB pixel write: positions whose XOR-1 partner
lies in the pixel byte range receive the corresponding sequence byte, all
other positions are untouched. -/
theorem writePixel_getD_RGB (mask : List Nat) (i : Nat)
    (pixel : PixelColor) (buf : List Nat)
    (hb : (i + 1) * 9 < buf.length) (m : Nat) :
    (writePixel PixelFormat.RGB mask i pixel buf).getD m 0 =
      if i * 9 ≤ m ^^^ 1 ∧ m ^^^ 1 < (i + 1) * 9 then
        pixelSeqByte pixel (maskAllows mask i) ((m ^^^ 1) - i * 9)
      else buf.getD m 0 := by
  by_cases hc : i * 9 ≤ m ^^^ 1 ∧ m ^^^ 1 < (i + 1) * 9
  · rw [if_pos hc]
    obtain ⟨d, hdlt, hm⟩ : ∃ d, d < 9 ∧ m = (i * 9 + d) ^^^ 1 :=
      ⟨(m ^^^ 1) - i * 9, by omega,
       by rw [show i * 9 + ((m ^^^ 1) - i * 9) = m ^^^ 1 by omega, xor_one_invol]⟩
    subst hm
    rw [xor_one_invol, Nat.add_sub_cancel_left]
    have hmlt : (i * 9 + d) ^^^ 1 < buf.length := by
      have := xor_one_le (i * 9 + d)
      omega
    interval_cases d
    · rw [writePixel_RGB_eq, getD_set_ne, getD_set_ne, getD_set_ne, getD_set_ne, getD_set_ne, getD_set_ne, getD_set_ne, getD_set_ne, getD_set_eq]
      · simp [pixelSeqByte]
      all_goals first
        | ((try simp only [List.length_set]); omega)
        | (simp only [ne_eq, xor_one_inj_iff]; omega)
    · rw [writePixel_RGB_eq, getD_set_ne, getD_set_ne, getD_set_ne, getD_set_ne, getD_set_ne, getD_set_eq]
      · simp [pixelSeqByte]
      all_goals first
        | ((try simp only [List.length_set]); omega)
        | (simp only [ne_eq, xor_one_inj_iff]; omega)
    · rw [writePixel_RGB_eq, getD_set_ne, getD_set_ne, getD_set_eq]
      · simp [pixelSeqByte]
      all_goals first
        | ((try simp only [List.length_set]); omega)
        | (simp only [ne_eq, xor_one_inj_iff]; omega)
    · rw [writePixel_RGB_eq, getD_set_ne, getD_set_ne, getD_set_ne, getD_set_ne, getD_set_ne, getD_set_ne, getD_set_ne, getD_set_eq]
      · simp [pixelSeqByte]
      all_goals first
        | ((try simp only [List.length_set]); omega)
        | (simp only [ne_eq, xor_one_inj_iff]; omega)
    · rw [writePixel_RGB_eq, getD_set_ne, getD_set_ne, getD_set_ne, getD_set_ne, getD_set_eq]
      · simp [pixelSeqByte]
      all_goals first
        | ((try simp only [List.length_set]); omega)
        | (simp only [ne_eq, xor_one_inj_iff]; omega)
    · rw [writePixel_RGB_eq, getD_set_ne, getD_set_eq]
      · simp [pixelSeqByte]
      all_goals first
        | ((try simp only [List.length_set]); omega)
        | (simp only [ne_eq, xor_one_inj_iff]; omega)
    · rw [writePixel_RGB_eq, getD_set_ne, getD_set_ne, getD_set_ne, getD_set_ne, getD_set_ne, getD_set_ne, getD_set_eq]
      · simp [pixelSeqByte]
      all_goals first
        | ((try simp only [List.length_set]); omega)
        | (simp only [ne_eq, xor_one_inj_iff]; omega)
    · rw [writePixel_RGB_eq, getD_set_ne, getD_set_ne, getD_set_ne, getD_set_eq]
      · simp [pixelSeqByte]
      all_goals first
        | ((try simp only [List.length_set]); omega)
        | (simp only [ne_eq, xor_one_inj_iff]; omega)
    · rw [writePixel_RGB_eq, getD_set_eq]
      · simp [pixelSeqByte]
      all_goals first
        | ((try simp only [List.length_set]); omega)
        | (simp only [ne_eq, xor_one_inj_iff]; omega)
  · rw [if_neg hc, writePixel_RGB_eq, getD_set_ne, getD_set_ne, getD_set_ne, getD_set_ne, getD_set_ne, getD_set_ne, getD_set_ne, getD_set_ne, getD_set_ne]
    all_goals (simp only [ne_eq, xor_one_eq_iff]; omega)

/-- Characterization of one RGBW pixel write: positions whose XOR-1 partner
lies in the pixel byte range receive the corresponding sequence byte, all
other positions are untouched. -/
theorem writePixel_getD_RGBW (mask : List Nat) (i : Nat)
    (pixel : PixelColor) (buf : List Nat)
    (hb : (i + 1) * 12 < buf.length) (m : Nat) :
    (writePixel PixelFormat.RGBW mask i pixel buf).getD m 0 =
      if i * 12 ≤ m ^^^ 1 ∧ m ^^^ 1 < (i + 1) * 12 then
        pixelSeqByte pixel (maskAllows mask i) ((m ^^^ 1) - i * 12)
      else buf.getD m 0 := by
  by_cases hc : i * 12 ≤ m ^^^ 1 ∧ m ^^^ 1 < (i + 1) * 12
  · rw [if_pos hc]
    obtain ⟨d, hdlt, hm⟩ : ∃ d, d < 12 ∧ m = (i * 12 + d) ^^^ 1 :=
      ⟨(m ^^^ 1) - i * 12, by omega,
       by rw [show i * 12 + ((m ^^^ 1) - i * 12) = m ^^^ 1 by omega, xor_one_invol]⟩
    subst hm
    rw [xor_one_invol, Nat.add_sub_cancel_left]
    have hmlt : (i * 12 + d) ^^^ 1 < buf.length := by
      have := xor_one_le (i * 12 + d)
      omega
    interval_cases d
    · rw [writePixel_RGBW_eq, getD_set_ne, getD_set_ne, getD_set_ne, getD_set_ne, getD_set_ne, getD_set_ne, getD_set_ne, getD_set_ne, getD_set_ne, getD_set_ne, getD_set_ne, getD_set_eq]
      · simp [pixelSeqByte]
      all_goals first
        | ((try simp only [List.length_set]); omega)
        | (simp only [ne_eq, xor_one_inj_iff]; omega)
    · rw [writePixel_RGBW_eq, getD_set_ne, getD_set_ne, getD_set_ne, getD_set_ne, getD_set_ne, getD_set_ne, getD_set_ne, getD_set_ne, getD_set_eq]
      · simp [pixelSeqByte]
      all_goals first
        | ((try simp only [List.length_set]); omega)
        | (simp only [ne_eq, xor_one_inj_iff]; omega)
    · rw [writePixel_RGBW_eq, getD_set_ne, getD_set_ne, getD_set_ne, getD_set_ne, getD_set_ne, getD_set_eq]
      · simp [pixelSeqByte]
      all_goals first
        | ((try simp only [List.length_set]); omega)
        | (simp only [ne_eq, xor_one_inj_iff]; omega)
    · rw [writePixel_RGBW_eq, getD_set_ne, getD_set_ne, getD_set_ne, getD_set_ne, getD_set_ne, getD_set_ne, getD_set_ne, getD_set_ne, getD_set_ne, getD_set_ne, getD_set_eq]
      · simp [pixelSeqByte]
      all_goals first
        | ((try simp only [List.length_set]); omega)
        | (simp only [ne_eq, xor_one_inj_iff]; omega)
    · rw [writePixel_RGBW_eq, getD_set_ne, getD_set_ne, getD_set_ne, getD_set_ne, getD_set_ne, getD_set_ne, getD_set_ne, getD_set_eq]
      · simp [pixelSeqByte]
      all_goals first
        | ((try simp only [List.length_set]); omega)
        | (simp only [ne_eq, xor_one_inj_iff]; omega)
    · rw [writePixel_RGBW_eq, getD_set_ne, getD_set_ne, getD_set_ne, getD_set_ne, getD_set_eq]
      · simp [pixelSeqByte]
      all_goals first
        | ((try simp only [List.length_set]); omega)
        | (simp only [ne_eq, xor_one_inj_iff]; omega)
    · rw [writePixel_RGBW_eq, getD_set_ne, getD_set_ne, getD_set_ne, getD_set_ne, getD_set_ne, getD_set_ne, getD_set_ne, getD_set_ne, getD_set_ne, getD_set_eq]
      · simp [pixelSeqByte]
      all_goals first
        | ((try simp only [List.length_set]); omega)
        | (simp only [ne_eq, xor_one_inj_iff]; omega)
    · rw [writePixel_RGBW_eq, getD_set_ne, getD_set_ne, getD_set_ne, getD_set_ne, getD_set_ne, getD_set_ne, getD_set_eq]
      · simp [pixelSeqByte]
      all_goals first
        | ((try simp only [List.length_set]); omega)
        | (simp only [ne_eq, xor_one_inj_iff]; omega)
    · rw [writePixel_RGBW_eq, getD_set_ne, getD_set_ne, getD_set_ne, getD_set_eq]
      · simp [pixelSeqByte]
      all_goals first
        | ((try simp only [List.length_set]); omega)
        | (simp only [ne_eq, xor_one_inj_iff]; omega)
    · rw [writePixel_RGBW_eq, getD_set_ne, getD_set_ne, getD_set_eq]
      · simp [pixelSeqByte]
      all_goals first
        | ((try simp only [List.length_set]); omega)
        | (simp only [ne_eq, xor_one_inj_iff]; omega)
    · rw [writePixel_RGBW_eq, getD_set_ne, getD_set_eq]
      · simp [pixelSeqByte]
      all_goals first
        | ((try simp only [List.length_set]); omega)
        | (simp only [ne_eq, xor_one_inj_iff]; omega)
    · rw [writePixel_RGBW_eq, getD_set_eq]
      · simp [pixelSeqByte]
      all_goals first
        | ((try simp only [List.length_set]); omega)
        | (simp only [ne_eq, xor_one_inj_iff]; omega)
  · rw [if_neg hc, writePixel_RGBW_eq, getD_set_ne, getD_set_ne, getD_set_ne, getD_set_ne, getD_set_ne, getD_set_ne, getD_set_ne, getD_set_ne, getD_set_ne, getD_set_ne, getD_set_ne, getD_set_ne]
    all_goals (simp only [ne_eq, xor_one_eq_iff]; omega)

/-- Characterization of one pixel write for either format. -/
theorem writePixel_getD (format : PixelFormat) (mask : List Nat) (i : Nat)
    (pixel : PixelColor) (buf : List Nat)
    (hb : (i + 1) * bytesPerPixel format < buf.length) (m : Nat) :
    (writePixel format mask i pixel buf).getD m 0 =
      if i * bytesPerPixel format ≤ m ^^^ 1 ∧ m ^^^ 1 < (i + 1) * bytesPerPixel format then
        pixelSeqByte pixel (maskAllows mask i) ((m ^^^ 1) - i * bytesPerPixel format)
      else buf.getD m 0 := by
  cases format with
  | RGB =>
    rw [show bytesPerPixel PixelFormat.RGB = 9 from rfl] at hb ⊢
    exact writePixel_getD_RGB mask i pixel buf hb m
  | RGBW =>
    rw [show bytesPerPixel PixelFormat.RGBW = 12 from rfl] at hb ⊢
    exact writePixel_getD_RGBW mask i pixel buf hb m

/-- A replicate of zeros reads zero at every position. -/
theorem replicate_getD_zero (n m : Nat) : (List.replicate n (0 : Nat)).getD m 0 = 0 := by
  rcases Nat.lt_or_ge m n with h | h
  · rw [List.getD_eq_getElem _ _ (by simpa using h)]
    simp
  · rw [List.getD_eq_default]
    simp [h]

/-- Reading from a take inside its range reads the original list. -/
theorem take_getD (l : List Nat) (n m : Nat) (h : m < n) (h2 : m < l.length) :
    (l.take n).getD m 0 = l.getD m 0 := by
  have hlt : m < (l.take n).length := by
    simp [List.length_take]
    omega
  rw [List.getD_eq_getElem _ _ hlt, List.getD_eq_getElem _ _ h2]
  simp

/-- Length of the buffer after zeroing the tail from data_size on. -/
theorem filled_length (l : List Nat) (ds : Nat) (h : ds ≤ l.length) :
    (l.take ds ++ List.replicate (l.length - ds) 0).length = l.length := by
  simp [List.length_take]
  omega

/-- Reading the buffer after zeroing the tail from data_size on. -/
theorem filled_getD (l : List Nat) (ds m : Nat) (hds : ds ≤ l.length) :
    (l.take ds ++ List.replicate (l.length - ds) 0).getD m 0 =
      if m < ds then l.getD m 0 else 0 := by
  by_cases hm : m < ds
  · rw [if_pos hm, List.getD_append]
    · exact take_getD l ds m hm (by omega)
    · simp [List.length_take]
      omega
  · rw [if_neg hm]
    by_cases hm2 : m < l.length
    · rw [List.getD_append_right]
      · exact replicate_getD_zero _ _
      · simp [List.length_take]
        omega
    · rw [List.getD_eq_default]
      rw [filled_length l ds hds]
      omega

/-- The pixel write loop keeps the buffer length. -/
theorem convertLoop_length (format : PixelFormat) (mask : List Nat) :
    ∀ (rest : List PixelColor) (i0 : Nat) (buf : List Nat),
      ((List.enumFrom i0 rest).foldl
          (fun bf ip => writePixel format mask ip.1 ip.2 bf) buf).length = buf.length := by
  intro rest
  induction rest with
  | nil => intro i0 buf; rfl
  | cons p t ih =>
    intro i0 buf
    simp only [List.enumFrom, List.foldl]
    rw [ih, writePixel_length]

/-- Characterization of the pixel write loop starting at pixel index i0: a
position whose XOR-1 partner k lies in the written range receives byte k mod
bpp of pixel k / bpp, all other positions are untouched. -/
theorem convertLoop_getD (format : PixelFormat) (mask : List Nat) :
    ∀ (rest : List PixelColor) (i0 : Nat) (buf : List Nat),
      (i0 + rest.length) * bytesPerPixel format < buf.length →
      ∀ m,
        ((List.enumFrom i0 rest).foldl
            (fun bf ip => writePixel format mask ip.1 ip.2 bf) buf).getD m 0 =
          if i0 * bytesPerPixel format ≤ m ^^^ 1 ∧
              m ^^^ 1 < (i0 + rest.length) * bytesPerPixel format then
            pixelSeqByte (rest.getD ((m ^^^ 1) / bytesPerPixel format - i0) PixelColor.Black)
              (maskAllows mask ((m ^^^ 1) / bytesPerPixel format))
              ((m ^^^ 1) % bytesPerPixel format)
          else buf.getD m 0 := by
  intro rest
  induction rest with
  | nil =>
    intro i0 buf hlen m
    simp only [List.enumFrom, List.foldl, List.length_nil, Nat.add_zero]
    rw [if_neg (by omega)]
  | cons p t ih =>
    intro i0 buf hlen m
    have hB : 0 < bytesPerPixel format := bytesPerPixel_pos format
    have hprod1 : (i0 + 1) * bytesPerPixel format ≤
        (i0 + (p :: t).length) * bytesPerPixel format :=
      Nat.mul_le_mul_right _ (by simp)
    have hprod2 : (i0 + 1 + t.length) * bytesPerPixel format =
        (i0 + (p :: t).length) * bytesPerPixel format := by
      simp only [List.length_cons]
      ring
    have hprod3 : i0 * bytesPerPixel format ≤ (i0 + 1) * bytesPerPixel format :=
      Nat.mul_le_mul_right _ (by omega)
    simp only [List.enumFrom, List.foldl]
    have hb1 : (i0 + 1 + t.length) * bytesPerPixel format <
        (writePixel format mask i0 p buf).length := by
      rw [writePixel_length, hprod2]
      exact hlen
    rw [ih (i0 + 1) (writePixel format mask i0 p buf) hb1 m]
    rw [writePixel_getD format mask i0 p buf (by omega) m]
    by_cases hA : (i0 + 1) * bytesPerPixel format ≤ m ^^^ 1 ∧
        m ^^^ 1 < (i0 + 1 + t.length) * bytesPerPixel format
    · rw [if_pos hA]
      rw [if_pos (by constructor; omega; omega)]
      have hdiv : i0 + 1 ≤ (m ^^^ 1) / bytesPerPixel format :=
        (Nat.le_div_iff_mul_le hB).mpr hA.1
      have hstep : (m ^^^ 1) / bytesPerPixel format - i0 =
          ((m ^^^ 1) / bytesPerPixel format - (i0 + 1)) + 1 := by omega
      rw [hstep, List.getD_cons_succ]
    · rw [if_neg hA]
      by_cases hB2 : i0 * bytesPerPixel format ≤ m ^^^ 1 ∧
          m ^^^ 1 < (i0 + 1) * bytesPerPixel format
      · rw [if_pos hB2]
        rw [if_pos (by constructor; omega; omega)]
        have hdiv : (m ^^^ 1) / bytesPerPixel format = i0 :=
          Nat.div_eq_of_lt_le hB2.1 hB2.2
        have hmod : (m ^^^ 1) % bytesPerPixel format = (m ^^^ 1) - i0 * bytesPerPixel format := by
          have h1 := Nat.mod_add_div (m ^^^ 1) (bytesPerPixel format)
          have h2 : bytesPerPixel format * ((m ^^^ 1) / bytesPerPixel format) =
              i0 * bytesPerPixel format := by
            rw [hdiv]
            ring
          omega
        rw [hdiv, hmod]
        simp
      · rw [if_neg hB2]
        rw [if_neg (by omega)]

/-- Length of the encoded buffer: convertToI2SBuffer keeps the allocated
buffer length. -/
theorem convert_length (format : PixelFormat) (mask : List Nat)
    (pixels : List PixelColor) (i2s : List Nat)
    (h : pixels.length * bytesPerPixel format ≤ i2s.length) :
    (convertToI2SBuffer format mask pixels i2s).length = i2s.length := by
  unfold convertToI2SBuffer
  rw [show pixels.enum = List.enumFrom 0 pixels from rfl]
  rw [convertLoop_length, filled_length _ _ h]

/-- Full characterization of the encoded buffer contents. -/
theorem convert_getD (format : PixelFormat) (mask : List Nat)
    (pixels : List PixelColor) (i2s : List Nat)
    (hlen : pixels.length * bytesPerPixel format < i2s.length) (m : Nat) :
    (convertToI2SBuffer format mask pixels i2s).getD m 0 =
      if m ^^^ 1 < pixels.length * bytesPerPixel format then
        pixelSeqByte (pixels.getD ((m ^^^ 1) / bytesPerPixel format) PixelColor.Black)
          (maskAllows mask ((m ^^^ 1) / bytesPerPixel format))
          ((m ^^^ 1) % bytesPerPixel format)
      else if m < pixels.length * bytesPerPixel format then i2s.getD m 0
      else 0 := by
  unfold convertToI2SBuffer
  rw [show pixels.enum = List.enumFrom 0 pixels from rfl]
  have hfl : (i2s.take (pixels.length * bytesPerPixel format) ++
      List.replicate (i2s.length - pixels.length * bytesPerPixel format) 0).length =
      i2s.length := filled_length _ _ (by omega)
  rw [convertLoop_getD format mask pixels 0 _ (by rw [hfl]; simpa using hlen) m]
  rw [filled_getD _ _ _ (by omega)]
  simp only [Nat.zero_add, Nat.zero_mul, Nat.zero_le, true_and, Nat.sub_zero]

/-
  C2: encoded buffer length and reset padding.
-/

/-- C2, counterexample: encoding a single black RGB pixel into a freshly
zeroed buffer of the allocated size 1 * 9 + 17 = 26 leaves the byte at index
9 — the first reset-padding byte, data_size being 9 — at the non-zero value
0x24, because the final data byte is stored at index (8 XOR 1) = 9.  The spec
sentence that all reset bytes are zero after every encode is therefore false
for odd data sizes. -/
theorem c2_counterexample :
    ([PixelColor.Black].length * bytesPerPixel PixelFormat.RGB = 9 ∧
      WS2812B_RESET_BYTES = 17) ∧
    (convertToI2SBuffer PixelFormat.RGB [] [PixelColor.Black]
        (List.replicate 26 0)).length = 26 ∧
    (convertToI2SBuffer PixelFormat.RGB [] [PixelColor.Black]
        (List.replicate 26 0)).getD 9 0 = 36 := by decide

/-- C2 (amended): for a buffer of the allocated size
pixel_count * bytes_per_pixel + reset_bytes, every encode keeps that length,
and every byte strictly past index data_size = pixel_count * bytes_per_pixel
is zero regardless of the buffer's prior contents.  The byte at index
data_size itself is zero when data_size is even (RGBW always, RGB with an
even pixel count); when data_size is odd it receives the final sequence byte
of the last pixel, which the XOR-1 byte-order swap sends past the data
region. -/
theorem c2_reset_padding (format : PixelFormat) (mask : List Nat)
    (pixels : List PixelColor) (i2s : List Nat)
    (hlen : i2s.length = pixels.length * bytesPerPixel format + WS2812B_RESET_BYTES) :
    (convertToI2SBuffer format mask pixels i2s).length =
        pixels.length * bytesPerPixel format + WS2812B_RESET_BYTES ∧
    (∀ m, pixels.length * bytesPerPixel format < m →
        (convertToI2SBuffer format mask pixels i2s).getD m 0 = 0) ∧
    (pixels.length * bytesPerPixel format % 2 = 0 →
        (convertToI2SBuffer format mask pixels i2s).getD
          (pixels.length * bytesPerPixel format) 0 = 0) ∧
    (pixels.length * bytesPerPixel format % 2 = 1 →
        (convertToI2SBuffer format mask pixels i2s).getD
          (pixels.length * bytesPerPixel format) 0 =
          pixelSeqByte
            (pixels.getD
              ((pixels.length * bytesPerPixel format - 1) / bytesPerPixel format)
              PixelColor.Black)
            (maskAllows mask
              ((pixels.length * bytesPerPixel format - 1) / bytesPerPixel format))
            ((pixels.length * bytesPerPixel format - 1) % bytesPerPixel format)) := by
  have h17 : WS2812B_RESET_BYTES = 17 := rfl
  have hds : pixels.length * bytesPerPixel format < i2s.length := by omega
  refine ⟨?_, ?_, ?_, ?_⟩
  · rw [convert_length format mask pixels i2s (by omega), hlen]
  · intro m hm
    rw [convert_getD format mask pixels i2s hds m]
    rcases Nat.mod_two_eq_zero_or_one m with h | h
    · rw [xor_one_of_even h, if_neg (by omega), if_neg (by omega)]
    · rw [xor_one_of_odd h, if_neg (by omega), if_neg (by omega)]
  · intro h
    rw [convert_getD format mask pixels i2s hds _]
    rw [xor_one_of_even h, if_neg (by omega), if_neg (by omega)]
  · intro h
    rw [convert_getD format mask pixels i2s hds _]
    rw [xor_one_of_odd h, if_pos (by omega)]

/-- C2, witness: the amended theorem applied to one black RGB pixel and the
26-byte allocated buffer; the reset byte at index 20 is zero. -/
theorem c2_reset_padding_witness :
    (List.replicate 26 (0 : Nat)).length =
      [PixelColor.Black].length * bytesPerPixel PixelFormat.RGB + WS2812B_RESET_BYTES ∧
    (convertToI2SBuffer PixelFormat.RGB [] [PixelColor.Black]
        (List.replicate 26 0)).getD 20 0 = 0 :=
  ⟨by decide, (c2_reset_padding PixelFormat.RGB [] [PixelColor.Black]
      (List.replicate 26 0) (by decide)).2.1 20 (by decide)⟩

/-
  C5: masking at encode time.
-/

/-- C5: for a non-empty mask of the pixel-buffer length and a pixel index
whose mask byte is zero, every protocol byte of that pixel — byte offset d
written at buffer position (i * bytes_per_pixel + d) XOR 1 — equals the
corresponding lookup byte of the color value 0, regardless of the color
stored in the pixel buffer: a masked pixel encodes as (0,0,0,0) at encode
time. -/
theorem c5_masked_pixel (format : PixelFormat) (mask : List Nat)
    (pixels : List PixelColor) (i2s : List Nat)
    (hlen : i2s.length = pixels.length * bytesPerPixel format + WS2812B_RESET_BYTES)
    (hmask : mask.length = pixels.length) (hne : mask ≠ [])
    (i : Nat) (hi : i < pixels.length) (hzero : mask.getD i 0 = 0)
    (d : Nat) (hd : d < bytesPerPixel format) :
    (convertToI2SBuffer format mask pixels i2s).getD
        ((i * bytesPerPixel format + d) ^^^ 1) 0 =
      ws2812b_color_lookup 0 (d % 3) := by
  have h17 : WS2812B_RESET_BYTES = 17 := rfl
  have hB : 0 < bytesPerPixel format := bytesPerPixel_pos format
  have hds : pixels.length * bytesPerPixel format < i2s.length := by omega
  have hle : (i + 1) * bytesPerPixel format ≤ pixels.length * bytesPerPixel format :=
    Nat.mul_le_mul_right _ (by omega)
  have hexp : (i + 1) * bytesPerPixel format =
      i * bytesPerPixel format + bytesPerPixel format := by ring
  rw [convert_getD format mask pixels i2s hds _, xor_one_invol]
  rw [if_pos (by omega)]
  have hdiv : (i * bytesPerPixel format + d) / bytesPerPixel format = i := by
    rw [Nat.add_comm, Nat.add_mul_div_right _ _ hB, Nat.div_eq_of_lt hd, Nat.zero_add]
  have hmod : (i * bytesPerPixel format + d) % bytesPerPixel format = d := by
    rw [Nat.add_comm, Nat.add_mul_mod_self_right, Nat.mod_eq_of_lt hd]
  rw [hdiv, hmod]
  have hempty : mask.isEmpty = false := by
    cases mask with
    | nil => exact absurd rfl hne
    | cons a t => rfl
  have hma : maskAllows mask i = false := by
    simp only [maskAllows, hempty, Bool.false_or]
    rw [hzero]
    simp
  rw [hma]
  have hd12 : d < 12 := by
    cases format <;> simp [bytesPerPixel, WS2812B_BYTES_PER_RGB,
      WS2812B_BYTES_PER_RGBW, WS2812B_BYTES_PER_COLOR] at hd <;> omega
  simp only [pixelSeqByte, Bool.false_eq_true, if_false]
  split_ifs <;> congr 1 <;> omega

/-- C5, witness: the theorem applied to a single white RGB pixel masked off
by the one-entry mask [0], over a dirty buffer filled with 5; the first
protocol byte of the pixel equals lookup byte 0 of value 0. -/
theorem c5_masked_pixel_witness :
    ([0] : List Nat).getD 0 0 = 0 ∧
    (convertToI2SBuffer PixelFormat.RGB [0] [⟨255, 255, 255, 0⟩]
        (List.replicate 26 5)).getD ((0 * bytesPerPixel PixelFormat.RGB + 0) ^^^ 1) 0 =
      ws2812b_color_lookup 0 (0 % 3) :=
  ⟨by decide, c5_masked_pixel PixelFormat.RGB [0] [⟨255, 255, 255, 0⟩]
      (List.replicate 26 5) (by decide) (by decide) (by decide) 0 (by decide)
      (by decide) 0 (by decide)⟩

/-
  C1: current limiting scale factor.
-/

/-- Closed form of the scale factor computation: the branch structure of
PixelDriver::getCurrentScaleFactor. -/
theorem scaleFactor_cases (limit : Int) (channels : List (PixelFormat × List PixelColor)) :
    PixelDriver.getCurrentScaleFactor limit channels =
      if limit ≤ 0 then 1
      else if PixelDriver.getTotalCurrentConsumption channels ≤ PixelDriver.availableBudget limit
        then 1
      else if PixelDriver.availableBudget limit = 0 then 0
      else ((PixelDriver.availableBudget limit : ℚ) /
        (PixelDriver.getTotalCurrentConsumption channels : ℚ)) := rfl

/-- C1: the global current-limiting scale factor.  For a limit of at most 0
the factor is 1; for a positive limit the available budget is
max(0, limit - 400), the factor is 1 when the total estimated consumption fits
the budget, 0 when the budget is zero and exceeded, and budget / total
otherwise; the factor always lies in [0, 1], and for a positive limit the
scaled total consumption never exceeds the budget (exactly, in rational
arithmetic). -/
theorem c1_current_scale_factor (channels : List (PixelFormat × List PixelColor))
    (limit : Int) :
    (limit ≤ 0 → PixelDriver.getCurrentScaleFactor limit channels = 1) ∧
    (0 < limit → (PixelDriver.availableBudget limit : Int) = max 0 (limit - 400)) ∧
    (0 < limit →
      PixelDriver.getTotalCurrentConsumption channels ≤ PixelDriver.availableBudget limit →
      PixelDriver.getCurrentScaleFactor limit channels = 1) ∧
    (0 < limit → PixelDriver.availableBudget limit = 0 →
      PixelDriver.availableBudget limit < PixelDriver.getTotalCurrentConsumption channels →
      PixelDriver.getCurrentScaleFactor limit channels = 0) ∧
    (0 < limit → 0 < PixelDriver.availableBudget limit →
      PixelDriver.availableBudget limit < PixelDriver.getTotalCurrentConsumption channels →
      PixelDriver.getCurrentScaleFactor limit channels =
        (PixelDriver.availableBudget limit : ℚ) /
          (PixelDriver.getTotalCurrentConsumption channels : ℚ)) ∧
    (0 ≤ PixelDriver.getCurrentScaleFactor limit channels ∧
      PixelDriver.getCurrentScaleFactor limit channels ≤ 1) ∧
    (0 < limit →
      (PixelDriver.getTotalCurrentConsumption channels : ℚ) *
          PixelDriver.getCurrentScaleFactor limit channels ≤
        (PixelDriver.availableBudget limit : ℚ)) := by
  rw [scaleFactor_cases]
  refine ⟨?_, ?_, ?_, ?_, ?_, ?_, ?_⟩
  · intro h
    rw [if_pos h]
  · intro h
    unfold PixelDriver.availableBudget PixelDriver.SYSTEM_RESERVE_MA
    split <;> omega
  · intro h h2
    rw [if_neg (by omega), if_pos h2]
  · intro h h2 h3
    rw [if_neg (by omega), if_neg (by omega), if_pos h2]
  · intro h h2 h3
    rw [if_neg (by omega), if_neg (by omega), if_neg (by omega)]
  · split_ifs with h1 h2 h3
    · norm_num
    · norm_num
    · norm_num
    · have hT : 0 < PixelDriver.getTotalCurrentConsumption channels := by omega
      have hTQ : (0 : ℚ) < (PixelDriver.getTotalCurrentConsumption channels : ℚ) := by
        exact_mod_cast hT
      constructor
      · positivity
      · rw [div_le_one hTQ]
        exact_mod_cast (by omega :
          PixelDriver.availableBudget limit ≤ PixelDriver.getTotalCurrentConsumption channels)
  · intro h
    split_ifs with h1 h2 h3
    · omega
    · rw [mul_one]
      exact_mod_cast h2
    · rw [mul_zero]
      positivity
    · have hT : 0 < PixelDriver.getTotalCurrentConsumption channels := by omega
      have hTQ : ((PixelDriver.getTotalCurrentConsumption channels : ℚ)) ≠ 0 := by
        exact_mod_cast hT.ne'
      rw [mul_comm, div_mul_cancel₀ _ hTQ]

/-- Witness for C1, matching the spec scenario: two 30-pixel RGB channels all
white with a 1000 mA limit; the scaled total consumption stays within the
600 mA budget. -/
theorem c1_current_scale_factor_witness :
    (PixelDriver.getTotalCurrentConsumption
        [(PixelFormat.RGB, List.replicate 30 ⟨255, 255, 255, 0⟩),
         (PixelFormat.RGB, List.replicate 30 ⟨255, 255, 255, 0⟩)] : ℚ) *
      PixelDriver.getCurrentScaleFactor 1000
        [(PixelFormat.RGB, List.replicate 30 ⟨255, 255, 255, 0⟩),
         (PixelFormat.RGB, List.replicate 30 ⟨255, 255, 255, 0⟩)] ≤
    (PixelDriver.availableBudget 1000 : ℚ) :=
  (c1_current_scale_factor
    [(PixelFormat.RGB, List.replicate 30 ⟨255, 255, 255, 0⟩),
     (PixelFormat.RGB, List.replicate 30 ⟨255, 255, 255, 0⟩)] 1000).2.2.2.2.2.2
    (by norm_num)

/-
  C6: per-channel brightness and scale application.
-/

/-- C6: applyCurrentScaling writes, for each raw pixel component,
floor(raw * (brightness / 255) * min(scale, 1)) into the transmit buffer
(truncation of the non-negative product), leaves the raw pixel buffer
unchanged, and for 8-bit raw components and brightness the result fits 8
bits. -/
theorem c6_apply_current_scaling (ch : ChannelBuffers) (brightness : Nat) (scale : ℚ)
    (hs : 0 ≤ scale) :
    (PixelChannel.applyCurrentScaling ch brightness scale).pixel_buffer = ch.pixel_buffer ∧
    (PixelChannel.applyCurrentScaling ch brightness scale).scaled_buffer =
      ch.pixel_buffer.map (fun p =>
        ⟨(⌊(p.r : ℚ) * ((brightness : ℚ) / 255) * min scale 1⌋).toNat,
         (⌊(p.g : ℚ) * ((brightness : ℚ) / 255) * min scale 1⌋).toNat,
         (⌊(p.b : ℚ) * ((brightness : ℚ) / 255) * min scale 1⌋).toNat,
         (⌊(p.w : ℚ) * ((brightness : ℚ) / 255) * min scale 1⌋).toNat⟩) ∧
    (brightness ≤ 255 →
      (∀ q ∈ ch.pixel_buffer, q.r ≤ 255 ∧ q.g ≤ 255 ∧ q.b ≤ 255 ∧ q.w ≤ 255) →
      ∀ p ∈ (PixelChannel.applyCurrentScaling ch brightness scale).scaled_buffer,
        p.r ≤ 255 ∧ p.g ≤ 255 ∧ p.b ≤ 255 ∧ p.w ≤ 255) := by
  have hcomb0 : (0 : ℚ) ≤ (brightness : ℚ) / 255 * min scale 1 := by positivity
  refine ⟨rfl, ?_, ?_⟩
  · simp only [PixelChannel.applyCurrentScaling, trunc8]
    apply List.map_congr_left
    intro p _
    simp [mul_assoc]
  · intro hb hq p hp
    simp only [PixelChannel.applyCurrentScaling, List.mem_map] at hp
    obtain ⟨q, hq0, rfl⟩ := hp
    have hcomb1 : (brightness : ℚ) / 255 * min scale 1 ≤ 1 := by
      apply mul_le_one₀
      · rw [div_le_one (by norm_num : (0:ℚ) < 255)]
        exact_mod_cast hb
      · exact le_min hs (by norm_num)
      · exact min_le_right _ _
    obtain ⟨hr, hg, hbq, hw⟩ := hq q hq0
    have key : ∀ c : Nat, c ≤ 255 →
        (trunc8 ((c : ℚ) * ((brightness : ℚ) / 255 * min scale 1))) ≤ 255 := by
      intro c hc
      unfold trunc8
      rw [Int.toNat_le]
      have hle : (c : ℚ) * ((brightness : ℚ) / 255 * min scale 1) ≤ 255 := by
        calc (c : ℚ) * ((brightness : ℚ) / 255 * min scale 1) ≤ (c : ℚ) :=
              mul_le_of_le_one_right (by positivity) hcomb1
          _ ≤ 255 := by exact_mod_cast hc
      calc (⌊(c : ℚ) * ((brightness : ℚ) / 255 * min scale 1)⌋) ≤ ⌊(255 : ℚ)⌋ :=
            Int.floor_le_floor hle
        _ = 255 := by norm_num
    exact ⟨key q.r hr, key q.g hg, key q.b hbq, key q.w hw⟩

/-- Witness for C6: a concrete channel with one mid-gray pixel, brightness
128 and scale 1/2; the raw buffer is unchanged and the transmit components
stay within 8 bits. -/
theorem c6_apply_current_scaling_witness :
    (PixelChannel.applyCurrentScaling ⟨[⟨200, 100, 50, 0⟩], []⟩ 128 (1 / 2)).pixel_buffer =
      [⟨200, 100, 50, 0⟩] ∧
    ∀ p ∈ (PixelChannel.applyCurrentScaling ⟨[⟨200, 100, 50, 0⟩], []⟩ 128
        (1 / 2)).scaled_buffer,
      p.r ≤ 255 ∧ p.g ≤ 255 ∧ p.b ≤ 255 ∧ p.w ≤ 255 :=
  ⟨(c6_apply_current_scaling ⟨[⟨200, 100, 50, 0⟩], []⟩ 128 (1 / 2) (by norm_num)).1,
   (c6_apply_current_scaling ⟨[⟨200, 100, 50, 0⟩], []⟩ 128 (1 / 2) (by norm_num)).2.2
     (by norm_num) (by intro q hq; simp at hq; simp [hq])⟩

/-
  C8: effect dispatch.
-/

/-- Two lists agree under a map exactly when they have equal length and agree
pairwise on the zip. -/
theorem map_eq_iff_zip {α : Type} (f : α → Nat) :
    ∀ (l1 l2 : List α),
      (l1.length = l2.length ∧ ∀ p ∈ l1.zip l2, f p.1 = f p.2) ↔ l1.map f = l2.map f := by
  intro l1
  induction l1 with
  | nil =>
    intro l2
    cases l2 <;> simp
  | cons a t ih =>
    intro l2
    cases l2 with
    | nil => simp
    | cons b t2 =>
      simp only [List.zip_cons_cons, List.map_cons, List.mem_cons, List.length_cons]
      constructor
      · rintro ⟨hlen, hall⟩
        have h1 : f a = f b := hall (a, b) (Or.inl rfl)
        have h2 := (ih t2).mp ⟨by omega, fun p hp => hall p (Or.inr hp)⟩
        rw [h1, h2]
      · intro h
        injection h with h1 h2
        have ht := (ih t2).mpr h2
        refine ⟨by omega, ?_⟩
        rintro p (rfl | hp)
        · exact h1
        · exact ht.2 p hp

/-- equalsIgnoreCase holds exactly when the two strings agree character by
character after byte-level toupper. -/
theorem equalsIgnoreCase_iff (a b : String) :
    equalsIgnoreCase a b = true ↔
      a.data.map (fun c => toUpperByte c.toNat) =
        b.data.map (fun c => toUpperByte c.toNat) := by
  unfold equalsIgnoreCase
  rw [Bool.and_eq_true, beq_iff_eq, List.all_eq_true]
  rw [← map_eq_iff_zip (fun c => toUpperByte c.toNat) a.data b.data]
  simp [beq_iff_eq]

/-- equalsIgnoreCase is reflexive. -/
theorem equalsIgnoreCase_refl (a : String) : equalsIgnoreCase a a = true := by
  rw [equalsIgnoreCase_iff]

/-- equalsIgnoreCase is symmetric. -/
theorem equalsIgnoreCase_symm {a b : String} (h : equalsIgnoreCase a b = true) :
    equalsIgnoreCase b a = true := by
  rw [equalsIgnoreCase_iff] at h ⊢
  exact h.symm

/-- equalsIgnoreCase is transitive. -/
theorem equalsIgnoreCase_trans {a b c : String} (h1 : equalsIgnoreCase a b = true)
    (h2 : equalsIgnoreCase b c = true) : equalsIgnoreCase a c = true := by
  rw [equalsIgnoreCase_iff] at h1 h2 ⊢
  exact h1.trans h2

/-- The id keys of the built-in effect registry, in registration order. -/
theorem registry_keys :
    PixelEffectEngine.effect_registry.map Prod.fst =
      ["SOLID", "BLINK", "BREATHE", "CYCLIC", "RAINBOW", "COLOR_WIPE", "THEATER_CHASE",
       "SPARKLE", "COMET", "FIRE", "WAVE", "TWINKLE", "GRADIENT", "PULSE", "METEOR",
       "RUNNING_LIGHTS"] := rfl

/-- The built-in effect ids are pairwise distinct. -/
theorem registry_keys_nodup : (PixelEffectEngine.effect_registry.map Prod.fst).Nodup := by
  rw [registry_keys]
  decide

/-- Any two built-in effect ids that agree ignoring case are equal. -/
theorem registry_keys_ci_distinct :
    ∀ k1 ∈ PixelEffectEngine.effect_registry.map Prod.fst,
      ∀ k2 ∈ PixelEffectEngine.effect_registry.map Prod.fst,
        equalsIgnoreCase k1 k2 = true → k1 = k2 := by
  rw [registry_keys]
  decide

/-- No built-in effect id matches RAW ignoring case. -/
theorem registry_no_raw :
    ∀ k ∈ PixelEffectEngine.effect_registry.map Prod.fst,
      equalsIgnoreCase k "RAW" = false := by
  rw [registry_keys]
  decide

/-- In an association list whose keys are distinct, a key determines its
value. -/
theorem assoc_mem_unique {β : Type} {l : List (String × β)}
    (hnd : (l.map Prod.fst).Nodup) {k : String} {v1 v2 : β}
    (h1 : (k, v1) ∈ l) (h2 : (k, v2) ∈ l) : v1 = v2 := by
  induction l with
  | nil => simp at h1
  | cons a t ih =>
    simp only [List.map_cons, List.nodup_cons] at hnd
    rcases List.mem_cons.mp h1 with he1 | ht1
    · rcases List.mem_cons.mp h2 with he2 | ht2
      · rw [← he1] at he2
        injection he2 with _ hv
        exact hv.symm
      · exfalso
        apply hnd.1
        rw [← he1]
        exact List.mem_map.mpr ⟨(k, v2), ht2, rfl⟩
    · rcases List.mem_cons.mp h2 with he2 | ht2
      · exfalso
        apply hnd.1
        rw [← he2]
        exact List.mem_map.mpr ⟨(k, v1), ht1, rfl⟩
      · exact ih hnd.2 ht1 ht2

/-- C8: updateEffect dispatch.  A RAW identifier (compared ignoring case)
leaves state, buffer and random position untouched; an identifier equal
ignoring case to a registered built-in key runs that key's effect function;
and an identifier that is not RAW and matches no registered key ignoring case
falls back to the solid fill. -/
theorem c8_update_effect_dispatch (name : String) (r : Rng) (rate : Nat) (cfg : EffectEnv)
    (st : EffectState) (buf : List PixelColor) (tick pos : Nat) :
    (equalsIgnoreCase name "RAW" = true →
      PixelEffectEngine.updateEffect name r rate cfg st buf tick pos = (st, buf, pos)) ∧
    (∀ key fn, (key, fn) ∈ PixelEffectEngine.effect_registry →
      equalsIgnoreCase name key = true →
      PixelEffectEngine.updateEffect name r rate cfg st buf tick pos =
        fn r rate cfg st buf tick pos) ∧
    (equalsIgnoreCase name "RAW" = false →
      (∀ key ∈ PixelEffectEngine.effect_registry.map Prod.fst,
        equalsIgnoreCase name key = false) →
      PixelEffectEngine.updateEffect name r rate cfg st buf tick pos =
        PixelEffectEngine.applySolid r rate cfg st buf tick pos) := by
  refine ⟨?_, ?_, ?_⟩
  · intro h
    unfold PixelEffectEngine.updateEffect
    rw [if_pos h]
  · intro key fn hmem hci
    have hkey : key ∈ PixelEffectEngine.effect_registry.map Prod.fst :=
      List.mem_map_of_mem Prod.fst hmem
    have hNotRaw : equalsIgnoreCase name "RAW" = false := by
      cases hx : equalsIgnoreCase name "RAW" with
      | false => rfl
      | true =>
        exfalso
        have hkr : equalsIgnoreCase key "RAW" = true :=
          equalsIgnoreCase_trans (equalsIgnoreCase_symm hci) hx
        rw [registry_no_raw key hkey] at hkr
        exact Bool.false_ne_true hkr
    unfold PixelEffectEngine.updateEffect
    rw [if_neg (by simp [hNotRaw])]
    cases hlex : PixelEffectEngine.lookupExact PixelEffectEngine.effect_registry name with
    | some fn2 =>
      obtain ⟨a, hfind, ha⟩ := Option.map_eq_some'.mp hlex
      have hpred := List.find?_some hfind
      have haname : a.1 = name := by simpa using hpred
      have hamem : a ∈ PixelEffectEngine.effect_registry := List.mem_of_find?_eq_some hfind
      have hakey : a.1 ∈ PixelEffectEngine.effect_registry.map Prod.fst :=
        List.mem_map_of_mem Prod.fst hamem
      have heq : key = a.1 :=
        registry_keys_ci_distinct key hkey a.1 hakey
          (by rw [haname]; exact equalsIgnoreCase_symm hci)
      have hfn : fn = a.2 := by
        apply assoc_mem_unique registry_keys_nodup hmem
        rw [heq]
        exact hamem
      rw [hfn, ← ha]
    | none =>
      cases hlci : PixelEffectEngine.lookupCI PixelEffectEngine.effect_registry name with
      | some fn2 =>
        obtain ⟨a, hfind, ha⟩ := Option.map_eq_some'.mp hlci
        have hpred : equalsIgnoreCase a.1 name = true := by
          simpa using List.find?_some hfind
        have hamem : a ∈ PixelEffectEngine.effect_registry := List.mem_of_find?_eq_some hfind
        have hakey : a.1 ∈ PixelEffectEngine.effect_registry.map Prod.fst :=
          List.mem_map_of_mem Prod.fst hamem
        have heq : a.1 = key :=
          registry_keys_ci_distinct a.1 hakey key hkey
            (equalsIgnoreCase_trans hpred hci)
        have hfn : fn = a.2 := by
          apply assoc_mem_unique registry_keys_nodup hmem
          rw [← heq]
          exact hamem
        rw [hfn, ← ha]
      | none =>
        exfalso
        unfold PixelEffectEngine.lookupCI at hlci
        rw [Option.map_eq_none'] at hlci
        rw [List.find?_eq_none] at hlci
        exact absurd (by simpa using equalsIgnoreCase_symm hci) (by simpa using hlci _ hmem)
  · intro hraw hnone
    unfold PixelEffectEngine.updateEffect
    rw [if_neg (by simp [hraw])]
    have hle : PixelEffectEngine.lookupExact PixelEffectEngine.effect_registry name = none := by
      unfold PixelEffectEngine.lookupExact
      rw [Option.map_eq_none', List.find?_eq_none]
      intro p hp
      simp only [beq_iff_eq]
      intro hcon
      have h2 := hnone p.1 (List.mem_map_of_mem Prod.fst hp)
      rw [hcon, equalsIgnoreCase_refl] at h2
      simp at h2
    rw [hle]
    have hlc : PixelEffectEngine.lookupCI PixelEffectEngine.effect_registry name = none := by
      unfold PixelEffectEngine.lookupCI
      rw [Option.map_eq_none', List.find?_eq_none]
      intro p hp
      intro hcon
      have h2 := hnone p.1 (List.mem_map_of_mem Prod.fst hp)
      have h3 := equalsIgnoreCase_symm (show equalsIgnoreCase p.1 name = true by simpa using hcon)
      rw [h2] at h3
      simp at h3
    rw [hlc]

/-- Witness for C8: the identifier blink (lower case) runs the registered
BLINK effect. -/
theorem c8_update_effect_dispatch_witness :
    PixelEffectEngine.updateEffect "blink" (fun _ => 0) 60 ⟨⟨0, 0, 0, 0⟩, 255, 5⟩ {} [] 0 0 =
      PixelEffectEngine.applyBlink (fun _ => 0) 60 ⟨⟨0, 0, 0, 0⟩, 255, 5⟩ {} [] 0 0 :=
  (c8_update_effect_dispatch "blink" (fun _ => 0) 60 ⟨⟨0, 0, 0, 0⟩, 255, 5⟩ {} [] 0 0).2.1
    "BLINK" PixelEffectEngine.applyBlink
    (by unfold PixelEffectEngine.effect_registry
        exact List.mem_cons_of_mem _ (List.mem_cons_self _ _))
    (by decide)

/-
  C3: engine / preview frame parity.
-/

/-- C3 counterexample: the FIRE effect diverges between the hardware engine
and the preview for a 10-pixel strip, even from identical animation states
(zeroed heat) and the same random stream.  The engine cools min(size, 64) = 10
heat cells and then reads its ignition-chance byte at stream position 10,
while the preview cools max(64, led_count) = 64 cells and reads the chance
byte at position 64; with a stream that is 0 everywhere except position 64
(value 255), the engine ignites a spark (first pixel becomes 255, 225, 0)
while the preview does not (first pixel stays black), so the frames are not
bit-identical. -/
theorem c3_counterexample :
    (PixelEffectEngine.applyFire (fun n => if n == 64 then 255 else 0) 60
        ⟨⟨255, 0, 0, 0⟩, 255, 5⟩ { fire_heat := List.replicate 64 0 }
        (List.replicate 10 PixelColor.Black) 18 0).2.1 ≠
      (PixelPreview.applyFire (fun n => if n == 64 then 255 else 0) 60
        ⟨⟨255, 0, 0, 0⟩, 255, 5⟩ { fire_heat := List.replicate 64 0 }
        (List.replicate 10 PixelColor.Black) 18 0).2.1 := by
  decide

/-- C3 as amended: for each of the fifteen built-in effects other than FIRE,
the engine and preview implementations compute identical (state, frame,
random-position) results from identical inputs, at every strip length; the
FIRE implementations differ (the engine iterates over min(size, 64) heat
cells of the fixed union array, the preview over max(64, led_count) heat
cells), and they coincide when the strip length is exactly 64. -/
theorem c3_engine_preview_parity (r : Rng) (rate : Nat) (cfg : EffectEnv)
    (st : EffectState) (buf : List PixelColor) (tick pos : Nat) :
    PixelEffectEngine.applySolid r rate cfg st buf tick pos =
      PixelPreview.applySolid r rate cfg st buf tick pos ∧
    PixelEffectEngine.applyBlink r rate cfg st buf tick pos =
      PixelPreview.applyBlink r rate cfg st buf tick pos ∧
    PixelEffectEngine.applyBreathe r rate cfg st buf tick pos =
      PixelPreview.applyBreathe r rate cfg st buf tick pos ∧
    PixelEffectEngine.applyCyclic r rate cfg st buf tick pos =
      PixelPreview.applyCyclic r rate cfg st buf tick pos ∧
    PixelEffectEngine.applyRainbow r rate cfg st buf tick pos =
      PixelPreview.applyRainbow r rate cfg st buf tick pos ∧
    PixelEffectEngine.applyColorWipe r rate cfg st buf tick pos =
      PixelPreview.applyColorWipe r rate cfg st buf tick pos ∧
    PixelEffectEngine.applyTheaterChase r rate cfg st buf tick pos =
      PixelPreview.applyTheaterChase r rate cfg st buf tick pos ∧
    PixelEffectEngine.applySparkle r rate cfg st buf tick pos =
      PixelPreview.applySparkle r rate cfg st buf tick pos ∧
    PixelEffectEngine.applyComet r rate cfg st buf tick pos =
      PixelPreview.applyComet r rate cfg st buf tick pos ∧
    PixelEffectEngine.applyWave r rate cfg st buf tick pos =
      PixelPreview.applyWave r rate cfg st buf tick pos ∧
    PixelEffectEngine.applyTwinkle r rate cfg st buf tick pos =
      PixelPreview.applyTwinkle r rate cfg st buf tick pos ∧
    PixelEffectEngine.applyGradient r rate cfg st buf tick pos =
      PixelPreview.applyGradient r rate cfg st buf tick pos ∧
    PixelEffectEngine.applyPulse r rate cfg st buf tick pos =
      PixelPreview.applyPulse r rate cfg st buf tick pos ∧
    PixelEffectEngine.applyMeteor r rate cfg st buf tick pos =
      PixelPreview.applyMeteor r rate cfg st buf tick pos ∧
    PixelEffectEngine.applyRunningLights r rate cfg st buf tick pos =
      PixelPreview.applyRunningLights r rate cfg st buf tick pos ∧
    (buf.length = 64 →
      PixelEffectEngine.applyFire r rate cfg st buf tick pos =
        PixelPreview.applyFire r rate cfg st buf tick pos) := by
  refine ⟨rfl, rfl, rfl, rfl, rfl, rfl, rfl, rfl, rfl, rfl, rfl, rfl, rfl, rfl, rfl, ?_⟩
  intro h64
  unfold PixelEffectEngine.applyFire PixelPreview.applyFire
  rw [h64]
  simp only [Nat.min_self, Nat.max_self, show max (64 : Nat) 1 = 64 from rfl]
  rfl

/-- Witness for C3 as amended: at strip length 64 the FIRE effect agrees
between engine and preview on a concrete input. -/
theorem c3_engine_preview_parity_witness :
    PixelEffectEngine.applyFire (fun n => if n == 64 then 255 else 0) 60
        ⟨⟨255, 0, 0, 0⟩, 255, 5⟩ { fire_heat := List.replicate 64 0 }
        (List.replicate 64 PixelColor.Black) 18 0 =
      PixelPreview.applyFire (fun n => if n == 64 then 255 else 0) 60
        ⟨⟨255, 0, 0, 0⟩, 255, 5⟩ { fire_heat := List.replicate 64 0 }
        (List.replicate 64 PixelColor.Black) 18 0 :=
  (c3_engine_preview_parity (fun n => if n == 64 then 255 else 0) 60
      ⟨⟨255, 0, 0, 0⟩, 255, 5⟩ { fire_heat := List.replicate 64 0 }
      (List.replicate 64 PixelColor.Black) 18
      0).2.2.2.2.2.2.2.2.2.2.2.2.2.2.2 (by simp)

/-
  C4: animation state reset on effect change.
-/

/-- C4 counterexample: changing the effect id of a hardware channel through
setEffectByID does not reset the engine-side animation state entry for that
channel; a state with last_update_tick = 7 survives unchanged, while the
default state has last_update_tick = 0.  No hardware-side setter touches
channel_states_, so the state used for the next frame is the old one. -/
theorem c4_counterexample :
    (PixelChannel.setEffectByID ⟨10, {}, { last_update_tick := 7 }⟩ "RAINBOW").anim =
      ({ last_update_tick := 7 } : EffectState) ∧
    ({ last_update_tick := 7 } : EffectState).last_update_tick ≠
      ({} : EffectState).last_update_tick := by
  exact ⟨rfl, by decide⟩

/-- C4 as amended: none of the hardware-channel setters (setEffect,
setEffectByID, setColor, setBrightness, setSpeed, setEnabled, setMask) resets
the channel's engine-side animation state, which persists across effect
changes; only the preview's setEffect resets its animation state (including
the heat map), and it does so exactly when the new effect id differs
case-insensitively from the current one. -/
theorem c4_state_reset (ch : PixelChannelM) (id2 : String) (cfg : EffectConfig)
    (c : PixelColor) (b s : Nat) (e : Bool) (m : List Nat)
    (pv : PixelPreview.PreviewState) :
    (PixelChannel.setEffectByID ch id2).anim = ch.anim ∧
    (PixelChannel.setEffect ch cfg).anim = ch.anim ∧
    (PixelChannel.setColor ch c).anim = ch.anim ∧
    (PixelChannel.setBrightness ch b).anim = ch.anim ∧
    (PixelChannel.setSpeed ch s).anim = ch.anim ∧
    (PixelChannel.setEnabled ch e).anim = ch.anim ∧
    (PixelChannel.setMask ch m).anim = ch.anim ∧
    (equalsIgnoreCase pv.current_effect id2 = false →
      PixelPreview.setEffect pv id2 =
        { pv with current_effect := id2,
                  state := PixelPreview.resetState pv.led_count }) ∧
    (equalsIgnoreCase pv.current_effect id2 = true →
      PixelPreview.setEffect pv id2 = pv) := by
  refine ⟨rfl, ?_, rfl, rfl, rfl, rfl, ?_, ?_, ?_⟩
  · simp only [PixelChannel.setEffect, PixelChannel.setMask]
    split
    · split <;> simp
    · simp
  · simp only [PixelChannel.setMask]
    split <;> rfl
  · intro h
    unfold PixelPreview.setEffect
    rw [h]
    rfl
  · intro h
    unfold PixelPreview.setEffect
    rw [h]
    rfl

/-- Witness for C4 as amended, at a concrete preview state: switching from
SOLID to RAINBOW resets the preview state; re-setting solid in another case
leaves it unchanged. -/
theorem c4_state_reset_witness :
    PixelPreview.setEffect ⟨10, "SOLID", { last_update_tick := 7 }⟩ "RAINBOW" =
      { led_count := 10, current_effect := "RAINBOW",
        state := PixelPreview.resetState 10 } ∧
    PixelPreview.setEffect ⟨10, "SOLID", { last_update_tick := 7 }⟩ "solid" =
      ⟨10, "SOLID", { last_update_tick := 7 }⟩ :=
  ⟨(c4_state_reset ⟨10, {}, {}⟩ "RAINBOW" {} {} 0 0 true []
      ⟨10, "SOLID", { last_update_tick := 7 }⟩).2.2.2.2.2.2.2.1 (by decide),
   (c4_state_reset ⟨10, {}, {}⟩ "solid" {} {} 0 0 true []
      ⟨10, "SOLID", { last_update_tick := 7 }⟩).2.2.2.2.2.2.2.2 (by decide)⟩

end KD
